import Mathlib

/-!
Verification development for the k8s-ingress-meta-sync repository.

The Go sources are shallowly embedded as executable Lean definitions:
strings that must be scanned character by character (CIDRs, Cloudflare
filter expressions) are modelled as `List Char`; Go maps used in
`IPRangeSet.Diff` are modelled as association lists with overwrite-on-insert
(Go map iteration order is unspecified, so all theorems about `Diff` are
stated at the level of membership, which is order-independent); wall-clock
time is modelled as a natural-number instant; the external HTTP / Kubernetes
collaborators are modelled as explicit environments passed to the embedded
functions, with each external call's outcome drawn from the environment.
-/

namespace MetaSync

/-- Left brace character, kept out of string literals. -/
def lbrace : Char := Char.ofNat 123

/-- Right brace character, kept out of string literals. -/
def rbrace : Char := Char.ofNat 125

/-- Characters of a string literal, the representation used for Go strings
that the code inspects byte by byte (all strings involved are ASCII). -/
def strL (s : String) : List Char := s.toList

/-- Decimal digit test, model of the digit check inside Go `net` parsing. -/
def isDigit (c : Char) : Bool := '0' ≤ c && c ≤ '9'

/-- Hexadecimal digit test for IPv6 groups. -/
def isHexDigit (c : Char) : Bool :=
  isDigit c || ('a' ≤ c && c ≤ 'f') || ('A' ≤ c && c ≤ 'F')

/-- Whitespace test, model of `unicode.IsSpace` restricted to the ASCII
whitespace characters (the only ones that can occur in the scanned strings). -/
def isSpaceChar (c : Char) : Bool :=
  c = ' ' || c = '\t' || c = '\n' || c = '\r' ||
  c = Char.ofNat 11 || c = Char.ofNat 12

/-- Splits a character list at every occurrence of `sep`, keeping empty
pieces, as Go's `strings.Split` does; used to model `net.ParseCIDR`'s
decomposition of an address into octets / groups / mask. -/
def splitOnChar (sep : Char) : List Char → List (List Char)
  | [] => [[]]
  | c :: rest =>
    match splitOnChar sep rest with
    | [] => [[]]
    | p :: ps => if c = sep then [] :: p :: ps else (c :: p) :: ps

/-- Numeric value of a decimal digit string. -/
def decVal (l : List Char) : Nat := l.foldl (fun n c => n * 10 + (c.toNat - 48)) 0

/-- Model of one dotted-quad octet accepted by Go `net.ParseIP`: one to
three decimal digits, value at most 255, no leading zero. -/
def validOctet (l : List Char) : Bool :=
  !l.isEmpty && l.all isDigit && l.length ≤ 3 && decVal l ≤ 255 &&
  !(2 ≤ l.length && l.head? = some '0')

/-- Modelled from Go `net.ParseIP`'s IPv4 form: four valid octets separated
by dots. -/
def validIPv4 (l : List Char) : Bool :=
  match splitOnChar '.' l with
  | [a, b, c, d] => validOctet a && validOctet b && validOctet c && validOctet d
  | _ => false

/-- One IPv6 group: one to four hexadecimal digits. -/
def validHexGroup (l : List Char) : Bool :=
  !l.isEmpty && l.length ≤ 4 && l.all isHexDigit

/-- Modelled from Go `net.ParseIP`'s IPv6 form. The model is exact on the
character set (hex digits, colons, dots only) and on the group shape, and
approximate on the placement rules for `::` compression, which no theorem
below depends on. -/
def validIPv6 (l : List Char) : Bool :=
  l.any (· = ':') &&
  !l.isEmpty &&
  l.all (fun c => isHexDigit c || c = ':' || c = '.') &&
  (splitOnChar ':' l).all (fun p => p.isEmpty || validHexGroup p || validIPv4 p) &&
  (splitOnChar ':' l).length ≤ 9

/-- Mask part of a CIDR: decimal digits with value bounded by the address
family's bit width. -/
def validMask (l : List Char) (maxBits : Nat) : Bool :=
  !l.isEmpty && l.all isDigit && l.length ≤ 3 && decVal l ≤ maxBits

/-- Modelled from Go `net.ParseCIDR` (an external collaborator of the repo):
an address part, one slash, and a mask bounded by the family's bit width. -/
def validCIDR (l : List Char) : Bool :=
  match splitOnChar '/' l with
  | [addr, mask] =>
    (validIPv4 addr && validMask mask 32) ||
    (validIPv6 addr && validMask mask 128)
  | _ => false

/-- IPRange from pkg/model: a CIDR string plus its labels. -/
structure IPRange where
  CIDR : List Char
  Labels : List String
  deriving Repr, DecidableEq

/-- IPRangeSet from pkg/model: the ordered member sequence. -/
structure IPRangeSet where
  Ranges : List IPRange
  deriving Repr, DecidableEq

/-- NewIPRangeSet: the empty set. -/
def NewIPRangeSet : IPRangeSet := ⟨[]⟩

namespace IPRangeSet

/-- Add from pkg/model: validates the CIDR, then appends. -/
def Add (s : IPRangeSet) (cidr : List Char) (labels : List String) :
    Except String IPRangeSet :=
  if validCIDR cidr then .ok ⟨s.Ranges ++ [⟨cidr, labels⟩]⟩
  else .error "invalid CIDR format"

/-- Behaviour of the call sites that invoke `Add` and only log a failure:
the set is left unchanged when the CIDR is invalid. -/
def addOrSkip (s : IPRangeSet) (cidr : List Char) (labels : List String) :
    IPRangeSet :=
  match s.Add cidr labels with
  | .ok t => t
  | .error _ => s

/-- Label intersection test: the net effect of the nested include/exclude
loops in pkg/model Filter (each loop breaks on the first match, which is
exactly an existence test). -/
def labelMatch (wanted : List String) (labels : List String) : Bool :=
  wanted.any (fun w => labels.any (fun l => w = l))

/-- Keep decision of pkg/model Filter for one member: `include` starts as
`len(includeLabels) == 0`, the include loop can only set it true on a label
match, and the exclude loop can only set it false on a label match. -/
def keepRange (includeLabels excludeLabels : List String) (r : IPRange) : Bool :=
  (includeLabels.isEmpty || labelMatch includeLabels r.Labels) &&
  !(labelMatch excludeLabels r.Labels)

/-- Filter from pkg/model: appends the kept members, in order, to a freshly
created result set. -/
def Filter (s : IPRangeSet) (includeLabels excludeLabels : List String) :
    IPRangeSet :=
  ⟨s.Ranges.filter (keepRange includeLabels excludeLabels)⟩

/-- Merge from pkg/model: concatenation of both member sequences into a new
set. -/
def Merge (s other : IPRangeSet) : IPRangeSet :=
  ⟨s.Ranges ++ other.Ranges⟩

/-- GetCIDRs from pkg/model. -/
def GetCIDRs (s : IPRangeSet) : List (List Char) :=
  s.Ranges.map (·.CIDR)

/-- Count from pkg/model. -/
def Count (s : IPRangeSet) : Nat := s.Ranges.length

end IPRangeSet

/-- Insertion into the association-list model of the Go maps built inside
Diff: `map[cidr] = ipRange` overwrites the value when the key exists. -/
def upsert (m : List (List Char × IPRange)) (r : IPRange) :
    List (List Char × IPRange) :=
  if m.any (fun kv => kv.1 = r.CIDR) then
    m.map (fun kv => if kv.1 = r.CIDR then (kv.1, r) else kv)
  else m ++ [(r.CIDR, r)]

/-- The `otherMap` / `thisMap` construction of Diff: key every member by its
CIDR, later occurrences overwriting earlier ones. -/
def toMap (l : List IPRange) : List (List Char × IPRange) :=
  l.foldl upsert []

/-- Key-membership test on the association-list model of a Go map. -/
def hasKey (m : List (List Char × IPRange)) (k : List Char) : Bool :=
  m.any (fun kv => kv.1 = k)

namespace IPRangeSet

/-- Diff from pkg/model: builds the two CIDR-keyed maps and collects, into
fresh sets, the entries of each map whose key is absent from the other.
Go iterates the maps in unspecified order; this model iterates in first-insertion
order, and every theorem about Diff is order-independent (membership level). -/
def Diff (s other : IPRangeSet) : IPRangeSet × IPRangeSet :=
  let otherMap := toMap other.Ranges
  let thisMap := toMap s.Ranges
  (⟨(otherMap.filter (fun kv => !hasKey thisMap kv.1)).map (·.2)⟩,
   ⟨(thisMap.filter (fun kv => !hasKey otherMap kv.1)).map (·.2)⟩)

end IPRangeSet

/-! Cloudflare ingress: the filter-expression mini-language and the apply
state machine (src cloudflare package). -/

/-- Index of the first occurrence of a character, `none` when absent. -/
def idxOfFrom (c : Char) : List Char → Option Nat
  | [] => none
  | a :: rest => if a = c then some 0 else (idxOfFrom c rest).map (· + 1)

/-- The `openBrace` computation of parseFilterExpression: the Go loop leaves
the variable at its zero value when no opening brace is found. -/
def firstIdxOr0 (c : Char) (l : List Char) : Nat :=
  (idxOfFrom c l).getD 0

/-- The `closeBrace` computation of parseFilterExpression: scan from the
end, zero value when no closing brace is found. -/
def lastIdxOr0 (c : Char) (l : List Char) : Nat :=
  match idxOfFrom c l.reverse with
  | some j => l.length - 1 - j
  | none => 0

/-- Model of `bytes.Fields`: the maximal whitespace-free words, in order.
The accumulator holds the current word reversed. -/
def fieldsAux : List Char → List Char → List (List Char)
  | [], acc => if acc.isEmpty then [] else [acc.reverse]
  | c :: rest, acc =>
    if isSpaceChar c then
      if acc.isEmpty then fieldsAux rest [] else acc.reverse :: fieldsAux rest []
    else fieldsAux rest (c :: acc)

/-- Splits a string into whitespace-separated fields, as `bytes.Fields`. -/
def fields (l : List Char) : List (List Char) := fieldsAux l []

/-- parseFilterExpression from the cloudflare package: locate the first
opening and last closing brace (Go's zero-initialized indices make a brace
at index 0, or a missing brace, count as a parse failure), split the
enclosed text into fields, and Add each field, skipping invalid CIDRs. -/
def parseFilterExpression (expression : List Char) : IPRangeSet :=
  let openBrace := firstIdxOr0 lbrace expression
  let closeBrace := lastIdxOr0 rbrace expression
  if openBrace = 0 || closeBrace = 0 || closeBrace ≤ openBrace then
    NewIPRangeSet
  else
    let cidrsStr := (expression.drop (openBrace + 1)).take (closeBrace - (openBrace + 1))
    (fields cidrsStr).foldl
      (fun s cidr => s.addOrSkip cidr ["cloudflare"]) NewIPRangeSet

/-- The `cidrList` accumulation loop of buildFilterExpression: CIDRs joined
by single spaces. -/
def joinSpace : List (List Char) → List Char
  | [] => []
  | [c] => c
  | c :: rest => c ++ ' ' :: joinSpace rest

/-- buildFilterExpression from the cloudflare package. -/
def buildFilterExpression (ipRanges : IPRangeSet) : List Char :=
  let cidrs := ipRanges.GetCIDRs
  if cidrs.isEmpty then strL "(ip.src eq 0.0.0.0/32)"
  else strL "(ip.src in \x7b" ++ joinSpace cidrs ++ strL "\x7d)"

/-- One remote Cloudflare filter object: identifier, expression text, and
description (findFilterID matches the description against the rule name). -/
structure CFFilter where
  id : Nat
  expression : List Char
  description : String
  deriving Repr, DecidableEq

/-- State of one CloudflareIngress instance together with the remote zone:
the zone's filter list, a fresh-identifier counter for creates, and the
instance's memoized applied set with its fetch timestamp. -/
structure CFState where
  remote : List CFFilter
  nextId : Nat
  cachedData : Option IPRangeSet
  lastFetch : Nat
  deriving Repr, DecidableEq

/-- Configuration of a CloudflareIngress relevant to apply. -/
structure CFConfig where
  ruleName : String
  cacheTTL : Nat
  updateStrategy : String
  deriving Repr, DecidableEq

/-- findFilterID: the first remote filter whose description equals the
configured rule name, if any. This is a read call, not a write. -/
def findFilterID (cfg : CFConfig) (st : CFState) : Option Nat :=
  (st.remote.find? (fun f => f.description = cfg.ruleName)).map (·.id)

/-- GetCurrentIPRanges from the cloudflare package: serve the memo while it
is younger than the TTL; otherwise read the remote rule (an absent rule
yields the empty set) and reparse its expression, refreshing the memo. -/
def cfGetCurrent (cfg : CFConfig) (st : CFState) (now : Nat) :
    CFState × IPRangeSet :=
  if st.cachedData.isSome && now - st.lastFetch < cfg.cacheTTL then
    (st, st.cachedData.getD NewIPRangeSet)
  else
    match findFilterID cfg st with
    | none =>
      ({ st with cachedData := some NewIPRangeSet, lastFetch := now }, NewIPRangeSet)
    | some fid =>
      let expr := ((st.remote.find? (fun f => f.id = fid)).map (·.expression)).getD []
      let parsed := parseFilterExpression expr
      ({ st with cachedData := some parsed, lastFetch := now }, parsed)

/-- createRule followed by createFirewallRule: two external write calls.
The created filter carries the built expression and the rule name as its
description. The cache update at the end of createFirewallRule parses
`rule.Filter.Expression`, a field that was never assigned, so it parses the
empty string and memoizes the empty set. -/
def cfCreateRule (cfg : CFConfig) (st : CFState) (now : Nat)
    (expression : List Char) : CFState × Nat :=
  let withFilter :=
    { st with
      remote := st.remote ++ [CFFilter.mk st.nextId expression cfg.ruleName],
      nextId := st.nextId + 1 }
  ({ withFilter with
      cachedData := some (parseFilterExpression []),
      lastFetch := now }, 2)

/-- updateRule: one external write call replacing the filter's expression;
the memo is refreshed from a reparse of the written expression. -/
def cfUpdateRule (_cfg : CFConfig) (st : CFState) (now : Nat) (fid : Nat)
    (expression : List Char) : CFState × Nat :=
  let remote' := st.remote.map
    (fun f => if f.id = fid then { f with expression := expression } else f)
  ({ st with
      remote := remote',
      cachedData := some (parseFilterExpression expression),
      lastFetch := now }, 1)

/-- createOrUpdateRule: look the filter up by name and either create or
replace. Returns the new state and the number of external write calls. -/
def cfCreateOrUpdateRule (cfg : CFConfig) (st : CFState) (now : Nat)
    (ipRanges : IPRangeSet) : CFState × Nat :=
  let expression := buildFilterExpression ipRanges
  match findFilterID cfg st with
  | none => cfCreateRule cfg st now expression
  | some fid => cfUpdateRule cfg st now fid expression

/-- ApplyIPRanges from the cloudflare package: read the applied set, diff
against the desired set, return with zero writes when the diff is empty,
otherwise full-replace under both the direct and incremental strategies.
The result carries the new state and the number of external write calls;
an unknown strategy is an error. -/
def cfApplyIPRanges (cfg : CFConfig) (st : CFState) (now : Nat)
    (ipRanges : IPRangeSet) : Except String (CFState × Nat) :=
  let (st1, currentRanges) := cfGetCurrent cfg st now
  let (added, removed) := currentRanges.Diff ipRanges
  if added.Count = 0 && removed.Count = 0 then
    .ok (st1, 0)
  else if cfg.updateStrategy = "direct" || currentRanges.Count = 0 then
    .ok (cfCreateOrUpdateRule cfg st1 now ipRanges)
  else if cfg.updateStrategy = "incremental" then
    .ok (cfCreateOrUpdateRule cfg st1 now ipRanges)
  else
    .error ("unknown update strategy: " ++ cfg.updateStrategy)

/-! GitHub provider: the memoized fetch (src github package). -/

/-- Decoded GitHub IP metadata document: one CIDR list per category. -/
structure GHMeta where
  hooks : List (List Char)
  web : List (List Char)
  api : List (List Char)
  git : List (List Char)
  pages : List (List Char)
  importer : List (List Char)
  actions : List (List Char)
  dependabot : List (List Char)
  deriving Repr, DecidableEq

/-- Conversion of the decoded metadata into an IPRangeSet, category by
category in source order, each CIDR tagged with its category as a label and
malformed CIDRs skipped with a warning. -/
def ghBuild (m : GHMeta) : IPRangeSet :=
  let step := fun (s : IPRangeSet) (cat : String) (cidrs : List (List Char)) =>
    cidrs.foldl (fun t c => t.addOrSkip c [cat]) s
  step (step (step (step (step (step (step (step
    NewIPRangeSet "hooks" m.hooks) "web" m.web) "api" m.api) "git" m.git)
    "pages" m.pages) "importer" m.importer) "actions" m.actions)
    "dependabot" m.dependabot

/-- Memoized state of one GitHubProvider instance. -/
structure GHState where
  cachedData : Option IPRangeSet
  lastFetch : Nat
  deriving Repr, DecidableEq

/-- FetchIPRanges from the github package: serve the memo while it is
younger than the TTL without contacting upstream; otherwise issue exactly
one upstream request (its outcome supplied by the environment) and, on
success, replace the memo and reset its timestamp. Returns the new state,
the result, and the number of upstream requests issued. -/
def ghFetchIPRanges (cacheTTL : Nat) (st : GHState) (now : Nat)
    (upstream : Except String GHMeta) :
    GHState × Except String IPRangeSet × Nat :=
  if st.cachedData.isSome && now - st.lastFetch < cacheTTL then
    (st, .ok (st.cachedData.getD NewIPRangeSet), 0)
  else
    match upstream with
    | .error e => (st, .error e, 1)
    | .ok meta =>
      let ipRangeSet := ghBuild meta
      ({ cachedData := some ipRangeSet, lastFetch := now }, .ok ipRangeSet, 1)

/-! Secret lookup (DefaultSecretReader.GetSecret in pkg/controller). -/

/-- GetSecret from pkg/controller: `secret` is the stored secret's data as
an association list (`none` when the client Get fails). A present key wins;
otherwise a single-entry secret supplies its only value; otherwise the
lookup fails. -/
def GetSecret (secret : Option (List (String × String)))
    (ns name key : String) : Except String String :=
  match secret with
  | none => .error ("secret " ++ ns ++ "/" ++ name ++ " not found")
  | some data =>
    match data.lookup key with
    | some v => .ok v
    | none =>
      match data with
      | [entry] => .ok entry.2
      | _ => .error ("key " ++ key ++ " not found in secret " ++ ns ++ "/" ++ name)

/-! Reconciliation engine (SyncReconciler in pkg/controller). External
collaborators (the declarative store, the provider/ingress constructors,
and the remote endpoints behind them) are supplied as environments keyed by
item name; each embedded stage consults the environment exactly where the
Go code performs the corresponding external call. -/

/-- One provider reference of a SyncConfig spec. -/
structure ProviderRef where
  name : String
  includeRanges : List String
  excludeRanges : List String
  deriving Repr, DecidableEq

/-- One ingress reference of a SyncConfig spec. -/
structure IngressRef where
  name : String
  deriving Repr, DecidableEq

/-- The SyncConfig spec fields the cycle reads: ordered references and the
optional sync policy's failure mode (`none` models a nil SyncPolicy). -/
structure SyncSpec where
  providers : List ProviderRef
  ingress : List IngressRef
  failureMode : Option String
  deriving Repr, DecidableEq

/-- The failure-mode test the controller repeats at every error site:
`syncConfig.Spec.SyncPolicy != nil && SyncPolicy.FailureMode == "fail"`. -/
def isFailMode (fm : Option String) : Bool := fm = some "fail"

/-- One ProviderSyncStatus / IngressSyncStatus record (the timestamp field
is dropped from the model). -/
structure ItemStatus where
  name : String
  status : String
  errorMsg : String
  ipRangesCount : Nat
  deriving Repr, DecidableEq

/-- Outcomes of the three external steps taken per provider: resolving its
ProviderConfig, constructing/initializing the provider instance, and the
FetchIPRanges call. -/
structure ProviderEnv where
  getConfig : String → Except String Unit
  createProvider : String → Except String Unit
  fetchRanges : String → Except String IPRangeSet

/-- Outcomes of the three external steps taken per ingress target:
resolving its IngressConfig, constructing/initializing the ingress
instance, and the ApplyIPRanges call (its outcome may depend on the set
passed). -/
structure IngressEnv where
  getConfig : String → Except String Unit
  createIngress : String → Except String Unit
  applyRanges : String → IPRangeSet → Except String Unit

/-- The filter step of collectProviderIPRanges: Filter is invoked only when
an include or exclude list is present. -/
def providerFilterStep (p : ProviderRef) (ranges : IPRangeSet) : IPRangeSet :=
  if !p.includeRanges.isEmpty || !p.excludeRanges.isEmpty then
    ranges.Filter p.includeRanges p.excludeRanges
  else ranges

/-- Loop of collectProviderIPRanges. Accumulates the merged aggregate, the
per-provider statuses, and the names for which the ProviderConfig was
consulted; under failure mode "fail" the first error aborts, discarding the
statuses (the Go code assigns them to the SyncConfig only after the loop). -/
def collectGo (fm : Option String) (env : ProviderEnv) :
    List ProviderRef → IPRangeSet → List ItemStatus → List String →
    List String × Except String (IPRangeSet × List ItemStatus)
  | [], allRanges, sts, consulted => (consulted, .ok (allRanges, sts))
  | p :: rest, allRanges, sts, consulted =>
    let consulted' := consulted ++ [p.name]
    match env.getConfig p.name with
    | .error m =>
      let msg := "Unable to fetch ProviderConfig: " ++ m
      if isFailMode fm then (consulted', .error msg)
      else collectGo fm env rest allRanges (sts ++ [⟨p.name, "Error", msg, 0⟩]) consulted'
    | .ok _ =>
      match env.createProvider p.name with
      | .error m =>
        let msg := "Unable to create provider: " ++ m
        if isFailMode fm then (consulted', .error msg)
        else collectGo fm env rest allRanges (sts ++ [⟨p.name, "Error", msg, 0⟩]) consulted'
      | .ok _ =>
        match env.fetchRanges p.name with
        | .error m =>
          let msg := "Unable to fetch IP ranges: " ++ m
          if isFailMode fm then (consulted', .error msg)
          else collectGo fm env rest allRanges (sts ++ [⟨p.name, "Error", msg, 0⟩]) consulted'
        | .ok providerRanges =>
          let filtered := providerFilterStep p providerRanges
          collectGo fm env rest (allRanges.Merge filtered)
            (sts ++ [⟨p.name, "Success", "", filtered.Count⟩]) consulted'

/-- collectProviderIPRanges from pkg/controller. -/
def collectProviderIPRanges (fm : Option String) (env : ProviderEnv)
    (provs : List ProviderRef) :
    List String × Except String (IPRangeSet × List ItemStatus) :=
  collectGo fm env provs NewIPRangeSet [] []

/-- Loop of applyIPRangesToIngress. Also records each invocation of
ApplyIPRanges together with the set it was handed. -/
def applyGo (fm : Option String) (env : IngressEnv) (ipRanges : IPRangeSet) :
    List IngressRef → List ItemStatus → List (String × IPRangeSet) →
    List (String × IPRangeSet) × Except String (List ItemStatus)
  | [], sts, calls => (calls, .ok sts)
  | t :: rest, sts, calls =>
    match env.getConfig t.name with
    | .error m =>
      let msg := "Unable to fetch IngressConfig: " ++ m
      if isFailMode fm then (calls, .error msg)
      else applyGo fm env ipRanges rest (sts ++ [⟨t.name, "Error", msg, 0⟩]) calls
    | .ok _ =>
      match env.createIngress t.name with
      | .error m =>
        let msg := "Unable to create ingress: " ++ m
        if isFailMode fm then (calls, .error msg)
        else applyGo fm env ipRanges rest (sts ++ [⟨t.name, "Error", msg, 0⟩]) calls
      | .ok _ =>
        let calls' := calls ++ [(t.name, ipRanges)]
        match env.applyRanges t.name ipRanges with
        | .error m =>
          let msg := "Unable to apply IP ranges: " ++ m
          if isFailMode fm then (calls', .error msg)
          else applyGo fm env ipRanges rest (sts ++ [⟨t.name, "Error", msg, 0⟩]) calls'
        | .ok _ =>
          applyGo fm env ipRanges rest
            (sts ++ [⟨t.name, "Success", "", ipRanges.Count⟩]) calls'

/-- applyIPRangesToIngress from pkg/controller. -/
def applyIPRangesToIngress (fm : Option String) (env : IngressEnv)
    (ipRanges : IPRangeSet) (targets : List IngressRef) :
    List (String × IPRangeSet) × Except String (List ItemStatus) :=
  applyGo fm env ipRanges targets [] []

/-- The Ready condition the cycle writes back via setStatusCondition. -/
structure ReadyCondition where
  status : Bool
  reason : String
  message : String
  deriving Repr, DecidableEq

/-- Observable outcome of one reconciliation cycle: the Ready condition,
the persisted per-item statuses (empty when the phase aborted before the
loop's final assignment), every ApplyIPRanges invocation with the set it
received, the providers whose configuration was consulted, and the
aggregate handed to the apply phase. -/
structure ReconcileResult where
  ready : ReadyCondition
  providerStatuses : List ItemStatus
  ingressStatuses : List ItemStatus
  applyCalls : List (String × IPRangeSet)
  processedProviders : List String
  aggregate : Option IPRangeSet
  deriving Repr

/-- Reconcile from pkg/controller, after the SyncConfig has been fetched:
collect provider ranges (an error sets Ready false with reason
ProviderError and returns), apply to ingress targets (an error sets Ready
false with reason IngressError and returns), otherwise set Ready true with
reason SyncSuccessful. -/
def Reconcile (spec : SyncSpec) (penv : ProviderEnv) (ienv : IngressEnv) :
    ReconcileResult :=
  match collectProviderIPRanges spec.failureMode penv spec.providers with
  | (consulted, .error m) =>
    ⟨⟨false, "ProviderError", m⟩, [], [], [], consulted, none⟩
  | (consulted, .ok (allRanges, psts)) =>
    match applyIPRangesToIngress spec.failureMode ienv allRanges spec.ingress with
    | (calls, .error m) =>
      ⟨⟨false, "IngressError", m⟩, psts, [], calls, consulted, some allRanges⟩
    | (calls, .ok ists) =>
      ⟨⟨true, "SyncSuccessful", "Successfully synced IP ranges"⟩,
        psts, ists, calls, consulted, some allRanges⟩

/-- The error message with which a provider item fails, when it does, with
the stage-specific prefix the controller attaches. -/
def provFailMsg (env : ProviderEnv) (p : ProviderRef) : Option String :=
  match env.getConfig p.name with
  | .error m => some ("Unable to fetch ProviderConfig: " ++ m)
  | .ok _ =>
    match env.createProvider p.name with
    | .error m => some ("Unable to create provider: " ++ m)
    | .ok _ =>
      match env.fetchRanges p.name with
      | .error m => some ("Unable to fetch IP ranges: " ++ m)
      | .ok _ => none

/-- A provider item fails when any of its three external steps fails. -/
def provFails (env : ProviderEnv) (p : ProviderRef) : Bool :=
  (provFailMsg env p).isSome

/-- Contribution of one provider to the aggregate: its filtered ranges when
all three steps succeed, nothing otherwise. -/
def provStep (env : ProviderEnv) (acc : IPRangeSet) (p : ProviderRef) :
    IPRangeSet :=
  match env.getConfig p.name, env.createProvider p.name,
      env.fetchRanges p.name with
  | .ok _, .ok _, .ok r => acc.Merge (providerFilterStep p r)
  | _, _, _ => acc

/-- Status record one provider item ends the cycle with. -/
def provStatus (env : ProviderEnv) (p : ProviderRef) : ItemStatus :=
  match provFailMsg env p with
  | some msg => ⟨p.name, "Error", msg, 0⟩
  | none =>
    match env.fetchRanges p.name with
    | .ok r => ⟨p.name, "Success", "", (providerFilterStep p r).Count⟩
    | .error _ => ⟨p.name, "Error", "", 0⟩

/-- The error message with which an ingress item fails, when it does, the
apply step being given the cycle's aggregate. -/
def ingFailMsg (env : IngressEnv) (agg : IPRangeSet) (t : IngressRef) :
    Option String :=
  match env.getConfig t.name with
  | .error m => some ("Unable to fetch IngressConfig: " ++ m)
  | .ok _ =>
    match env.createIngress t.name with
    | .error m => some ("Unable to create ingress: " ++ m)
    | .ok _ =>
      match env.applyRanges t.name agg with
      | .error m => some ("Unable to apply IP ranges: " ++ m)
      | .ok _ => none

/-- An ingress item fails when any of its three external steps fails. -/
def ingFails (env : IngressEnv) (agg : IPRangeSet) (t : IngressRef) : Bool :=
  (ingFailMsg env agg t).isSome

/-- Status record one ingress item ends the cycle with. -/
def ingStatus (env : IngressEnv) (agg : IPRangeSet) (t : IngressRef) :
    ItemStatus :=
  match ingFailMsg env agg t with
  | some msg => ⟨t.name, "Error", msg, 0⟩
  | none => ⟨t.name, "Success", "", agg.Count⟩

/-- The ApplyIPRanges invocation one ingress item gives rise to: recorded
exactly when its configuration and construction steps succeed. -/
def ingCallOpt (env : IngressEnv) (agg : IPRangeSet) (t : IngressRef) :
    Option (String × IPRangeSet) :=
  match env.getConfig t.name, env.createIngress t.name with
  | .ok _, .ok _ => some (t.name, agg)
  | _, _ => none

/-- The aggregate the cycle would hand to its targets: every provider whose
three steps succeed contributes its filtered ranges, in reference order. -/
def collectedAggregate (env : ProviderEnv) (provs : List ProviderRef) :
    IPRangeSet :=
  provs.foldl (provStep env) NewIPRangeSet

/-! Heap-level model of the set algebra, for the frame properties: Go
values live behind pointers, so Filter, Merge and Diff are re-embedded over
an explicit allocator-and-store memory. `NewIPRangeSet` allocates a fresh
address; each operation writes only to the addresses it allocated. -/

/-- Memory: a bump allocator and a store from addresses to member lists. -/
structure Mem where
  next : Nat
  store : Nat → List IPRange

/-- Writes one address of the store. -/
def Mem.write (m : Mem) (a : Nat) (v : List IPRange) : Mem :=
  ⟨m.next, fun x => if x = a then v else m.store x⟩

/-- Allocation of a fresh empty set, the heap step of NewIPRangeSet. -/
def Mem.alloc (m : Mem) : Mem × Nat :=
  (⟨m.next + 1, fun x => if x = m.next then [] else m.store x⟩, m.next)

/-- Filter over the store: allocate the result set, then append the kept
members of the receiver to it, leaving every other address untouched. -/
def FilterH (m : Mem) (self : Nat) (inc exc : List String) : Mem × Nat :=
  let (m1, res) := m.alloc
  (m1.write res ((m1.store self).filter (IPRangeSet.keepRange inc exc)), res)

/-- Merge over the store: allocate the result set, then append both member
sequences to it. -/
def MergeH (m : Mem) (self other : Nat) : Mem × Nat :=
  let (m1, res) := m.alloc
  (m1.write res (m1.store self ++ m1.store other), res)

/-- Diff over the store: allocate the added and removed sets, then fill
them from the two CIDR-keyed maps; only the two fresh addresses are
written. -/
def DiffH (m : Mem) (self other : Nat) : Mem × Nat × Nat :=
  let (m1, a) := m.alloc
  let (m2, r) := m1.alloc
  let (added, removed) := IPRangeSet.Diff ⟨m2.store self⟩ ⟨m2.store other⟩
  ((m2.write a added.Ranges).write r removed.Ranges, a, r)

/-- Character set that can occur in a CIDR accepted by the `net.ParseCIDR`
model: hex digits, dots, colons, and the slash. -/
def allowedChar (c : Char) : Bool :=
  isHexDigit c || c = '.' || c = ':' || c = '/'

/-! Helper lemmas. -/

lemma splitOnChar_ne_nil (sep : Char) (l : List Char) :
    splitOnChar sep l ≠ [] := by
  cases l with
  | nil => simp [splitOnChar]
  | cons c rest =>
    unfold splitOnChar
    rcases h : splitOnChar sep rest with _ | ⟨p, ps⟩
    · simp
    · by_cases hc : c = sep <;> simp [hc]

lemma mem_splitOnChar (sep : Char) {x : Char} :
    ∀ {l : List Char}, x ∈ l →
      x = sep ∨ ∃ p ∈ splitOnChar sep l, x ∈ p := by
  intro l
  induction l with
  | nil => intro hx; cases hx
  | cons c rest ih =>
    intro hx
    obtain ⟨p, ps, hrest⟩ : ∃ p ps, splitOnChar sep rest = p :: ps := by
      rcases h : splitOnChar sep rest with _ | ⟨p, ps⟩
      · exact absurd h (splitOnChar_ne_nil sep rest)
      · exact ⟨p, ps, rfl⟩
    have hcons : splitOnChar sep (c :: rest) =
        if c = sep then [] :: p :: ps else (c :: p) :: ps := by
      unfold splitOnChar
      rw [hrest]
    rcases List.mem_cons.1 hx with rfl | hx'
    · by_cases hc : x = sep
      · exact Or.inl hc
      · rw [hcons, if_neg hc]
        exact Or.inr ⟨x :: p, List.mem_cons_self _ _, List.mem_cons_self _ _⟩
    · rcases ih hx' with hsep | ⟨q, hq, hxq⟩
      · exact Or.inl hsep
      · rw [hrest] at hq
        by_cases hc : c = sep
        · rw [hcons, if_pos hc]
          exact Or.inr ⟨q, List.mem_cons_of_mem _ hq, hxq⟩
        · rw [hcons, if_neg hc]
          rcases List.mem_cons.1 hq with rfl | hq'
          · exact Or.inr ⟨c :: q, List.mem_cons_self _ _,
              List.mem_cons_of_mem _ hxq⟩
          · exact Or.inr ⟨q, List.mem_cons_of_mem _ hq', hxq⟩

lemma validOctet_chars {p : List Char} (h : validOctet p = true) :
    ∀ x ∈ p, isDigit x = true := by
  unfold validOctet at h
  simp only [Bool.and_eq_true] at h
  exact fun x hx => List.all_eq_true.1 h.1.1.1.2 x hx

lemma validIPv4_chars {l : List Char} (h : validIPv4 l = true) :
    ∀ x ∈ l, (isDigit x || x = '.') = true := by
  intro x hx
  unfold validIPv4 at h
  split at h
  next a b c d hsp =>
    rcases mem_splitOnChar '.' hx with rfl | ⟨p, hp, hxp⟩
    · simp
    · rw [hsp] at hp
      simp only [List.mem_cons, List.not_mem_nil, or_false] at hp
      simp only [Bool.and_eq_true] at h
      have hd : isDigit x = true := by
        rcases hp with rfl | rfl | rfl | rfl
        · exact validOctet_chars h.1.1.1 x hxp
        · exact validOctet_chars h.1.1.2 x hxp
        · exact validOctet_chars h.1.2 x hxp
        · exact validOctet_chars h.2 x hxp
      simp [hd]
  next => exact absurd h (by simp)

lemma validMask_chars {p : List Char} {b : Nat} (h : validMask p b = true) :
    ∀ x ∈ p, isDigit x = true := by
  unfold validMask at h
  simp only [Bool.and_eq_true] at h
  exact fun x hx => List.all_eq_true.1 h.1.1.2 x hx

lemma validCIDR_chars {l : List Char} (h : validCIDR l = true) :
    ∀ x ∈ l, allowedChar x = true := by
  intro x hx
  unfold validCIDR at h
  split at h
  next addr mask hsp =>
    rcases mem_splitOnChar '/' hx with rfl | ⟨p, hp, hxp⟩
    · simp [allowedChar]
    · rw [hsp] at hp
      simp only [List.mem_cons, List.not_mem_nil, or_false] at hp
      simp only [Bool.or_eq_true] at h
      rcases h with h4 | h6
      · simp only [Bool.and_eq_true] at h4
        rcases hp with rfl | rfl
        · have h' := validIPv4_chars h4.1 x hxp
          simp only [Bool.or_eq_true, decide_eq_true_eq] at h'
          rcases h' with hd | hdot
          · simp [allowedChar, isHexDigit, hd]
          · simp [allowedChar, hdot]
        · have h' := validMask_chars h4.2 x hxp
          simp [allowedChar, isHexDigit, h']
      · simp only [Bool.and_eq_true] at h6
        rcases hp with rfl | rfl
        · have hv6 := h6.1
          unfold validIPv6 at hv6
          simp only [Bool.and_eq_true] at hv6
          obtain ⟨⟨⟨⟨_, _⟩, hall⟩, _⟩, _⟩ := hv6
          have h' := List.all_eq_true.1 hall x hxp
          simp only [Bool.or_eq_true, decide_eq_true_eq] at h'
          rcases h' with (hhex | hcol) | hdot
          · simp [allowedChar, hhex]
          · simp [allowedChar, hcol]
          · simp [allowedChar, hdot]
        · have h' := validMask_chars h6.2 x hxp
          simp [allowedChar, isHexDigit, h']
  next => exact absurd h (by simp)

lemma allowedChar_not_space {c : Char} (h : allowedChar c = true) :
    isSpaceChar c = false := by
  cases hs : isSpaceChar c
  · rfl
  · exfalso
    unfold isSpaceChar at hs
    simp only [Bool.or_eq_true, decide_eq_true_eq] at hs
    rcases hs with ((((rfl | rfl) | rfl) | rfl) | rfl) | rfl <;>
      exact absurd h (by decide)

lemma allowedChar_ne_lbrace {c : Char} (h : allowedChar c = true) :
    c ≠ lbrace := by
  intro heq
  subst heq
  exact absurd h (by decide)

lemma allowedChar_ne_rbrace {c : Char} (h : allowedChar c = true) :
    c ≠ rbrace := by
  intro heq
  subst heq
  exact absurd h (by decide)

lemma validCIDR_ne_nil {c : List Char} (h : validCIDR c = true) : c ≠ [] := by
  intro heq
  subst heq
  exact absurd h (by decide)

lemma mem_joinSpace {x : Char} :
    ∀ {ws : List (List Char)}, x ∈ joinSpace ws →
      x = ' ' ∨ ∃ w ∈ ws, x ∈ w := by
  intro ws
  induction ws with
  | nil => intro hx; cases hx
  | cons w rest ih =>
    intro hx
    cases rest with
    | nil => exact Or.inr ⟨w, List.mem_cons_self _ _, hx⟩
    | cons w' ws' =>
      rw [show joinSpace (w :: w' :: ws') = w ++ ' ' :: joinSpace (w' :: ws')
        from rfl] at hx
      rcases List.mem_append.1 hx with hw | hrest
      · exact Or.inr ⟨w, List.mem_cons_self _ _, hw⟩
      · rcases List.mem_cons.1 hrest with rfl | hjoin
        · exact Or.inl rfl
        · rcases ih hjoin with hsp | ⟨v, hv, hxv⟩
          · exact Or.inl hsp
          · exact Or.inr ⟨v, List.mem_cons_of_mem _ hv, hxv⟩

lemma fieldsAux_nil (acc : List Char) :
    fieldsAux [] acc =
      if acc.isEmpty = true then [] else [acc.reverse] := rfl

lemma fieldsAux_cons (c : Char) (rest acc : List Char) :
    fieldsAux (c :: rest) acc =
      if isSpaceChar c = true then
        (if acc.isEmpty = true then fieldsAux rest []
         else acc.reverse :: fieldsAux rest [])
      else fieldsAux rest (c :: acc) := rfl

lemma fieldsAux_word : ∀ (w rest acc : List Char),
    (∀ ch ∈ w, isSpaceChar ch = false) →
    fieldsAux (w ++ rest) acc = fieldsAux rest (w.reverse ++ acc) := by
  intro w
  induction w with
  | nil => intro rest acc _; simp
  | cons c w' ih =>
    intro rest acc hw
    rw [List.cons_append, fieldsAux_cons,
      if_neg (by simp [hw c (List.mem_cons_self _ _)]),
      ih rest (c :: acc) (fun ch hch => hw ch (List.mem_cons_of_mem _ hch))]
    simp

lemma joinSpace_cons₂ (w w' : List Char) (ws : List (List Char)) :
    joinSpace (w :: w' :: ws) = w ++ ' ' :: joinSpace (w' :: ws) := rfl

lemma fields_joinSpace : ∀ (ws : List (List Char)),
    (∀ w ∈ ws, w ≠ [] ∧ ∀ ch ∈ w, isSpaceChar ch = false) →
    fields (joinSpace ws) = ws := by
  intro ws
  induction ws with
  | nil => intro _; rfl
  | cons w rest ih =>
    intro hws
    obtain ⟨hwne, hwns⟩ := hws w (List.mem_cons_self _ _)
    cases rest with
    | nil =>
      show fieldsAux (joinSpace [w]) [] = [w]
      rw [show joinSpace [w] = w from rfl,
        show fieldsAux w [] = fieldsAux (w ++ []) [] by rw [List.append_nil],
        fieldsAux_word w [] [] hwns, fieldsAux_nil]
      rw [if_neg (by simpa using hwne)]
      simp
    | cons w' ws' =>
      show fieldsAux (joinSpace (w :: w' :: ws')) [] = w :: w' :: ws'
      rw [joinSpace_cons₂, fieldsAux_word w _ [] hwns, fieldsAux_cons,
        if_pos (by decide), if_neg (by simpa using hwne)]
      rw [show fieldsAux (joinSpace (w' :: ws')) [] =
          fields (joinSpace (w' :: ws')) from rfl,
        ih (fun v hv => hws v (List.mem_cons_of_mem _ hv))]
      simp

lemma idxOfFrom_cons (c a : Char) (rest : List Char) :
    idxOfFrom c (a :: rest) =
      if a = c then some 0 else (idxOfFrom c rest).map (· + 1) := rfl

lemma idxOfFrom_append_none {c : Char} :
    ∀ (l₁ l₂ : List Char), idxOfFrom c l₁ = none →
      idxOfFrom c (l₁ ++ l₂) = (idxOfFrom c l₂).map (· + l₁.length) := by
  intro l₁
  induction l₁ with
  | nil =>
    intro l₂ _
    cases h : idxOfFrom c l₂ <;> simp [h]
  | cons a l ih =>
    intro l₂ h
    rw [idxOfFrom_cons] at h
    by_cases ha : a = c
    · rw [if_pos ha] at h
      cases h
    · rw [if_neg ha] at h
      have h' : idxOfFrom c l = none := by
        cases hh : idxOfFrom c l
        · rfl
        · rw [hh] at h; cases h
      rw [List.cons_append, idxOfFrom_cons, if_neg ha, ih l₂ h']
      cases idxOfFrom c l₂ with
      | none => rfl
      | some j =>
        simp only [Option.map_some', List.length_cons]
        rfl

lemma foldl_addOrSkip {cs : List (List Char)} :
    (∀ c ∈ cs, validCIDR c = true) →
    ∀ s₀ : IPRangeSet,
      (cs.foldl (fun s c => s.addOrSkip c ["cloudflare"]) s₀).Ranges =
        s₀.Ranges ++ cs.map (fun c => ⟨c, ["cloudflare"]⟩) := by
  induction cs with
  | nil => intro _ s₀; simp
  | cons c cs ih =>
    intro h s₀
    have hc := h c (List.mem_cons_self _ _)
    rw [List.foldl_cons, ih (fun d hd => h d (List.mem_cons_of_mem _ hd))]
    simp [IPRangeSet.addOrSkip, IPRangeSet.Add, hc]

lemma labelMatch_ne_nil {exc ls : List String}
    (h : IPRangeSet.labelMatch exc ls = true) : exc ≠ [] := by
  intro he
  subst he
  simp [IPRangeSet.labelMatch] at h

lemma keepRange_eq_spec (inc exc : List String) (r : IPRange) :
    IPRangeSet.keepRange inc exc r =
      ((decide (inc = []) || IPRangeSet.labelMatch inc r.Labels) &&
       !(decide (exc ≠ []) && IPRangeSet.labelMatch exc r.Labels)) := by
  unfold IPRangeSet.keepRange
  cases h : IPRangeSet.labelMatch exc r.Labels with
  | false => cases inc <;> simp [h]
  | true => simp [h, labelMatch_ne_nil h]

lemma mem_upsert {m : List (List Char × IPRange)} {a : IPRange} {kv}
    (h : kv ∈ upsert m a) : kv ∈ m ∨ (kv.2 = a ∧ kv.1 = a.CIDR) := by
  unfold upsert at h
  by_cases hk : m.any (fun kv => kv.1 = a.CIDR) = true
  · rw [if_pos hk] at h
    obtain ⟨kv', hkv', hf⟩ := List.mem_map.1 h
    by_cases hc : kv'.1 = a.CIDR
    · rw [if_pos hc] at hf
      subst hf
      exact Or.inr ⟨rfl, hc⟩
    · rw [if_neg hc] at hf
      subst hf
      exact Or.inl hkv'
  · rw [if_neg hk] at h
    rcases List.mem_append.1 h with hm | hone
    · exact Or.inl hm
    · rcases List.mem_singleton.1 hone with rfl
      exact Or.inr ⟨rfl, rfl⟩

lemma mem_foldl_upsert {l : List IPRange} {m : List (List Char × IPRange)} {kv}
    (h : kv ∈ l.foldl upsert m) : kv ∈ m ∨ (kv.2 ∈ l ∧ kv.1 = kv.2.CIDR) := by
  induction l generalizing m with
  | nil => exact Or.inl h
  | cons a l ih =>
    rcases ih (m := upsert m a) h with hm | hl
    · rcases mem_upsert hm with hm' | ⟨h2, h1⟩
      · exact Or.inl hm'
      · exact Or.inr ⟨by rw [h2]; exact List.mem_cons_self a l, by rw [h1, h2]⟩
    · exact Or.inr ⟨List.mem_cons_of_mem a hl.1, hl.2⟩

lemma mem_toMap {l : List IPRange} {kv} (h : kv ∈ toMap l) :
    kv.2 ∈ l ∧ kv.1 = kv.2.CIDR := by
  rcases mem_foldl_upsert h with hm | hl
  · exact absurd hm (List.not_mem_nil kv)
  · exact hl

lemma hasKey_upsert (m : List (List Char × IPRange)) (a : IPRange)
    (k : List Char) :
    hasKey (upsert m a) k = (hasKey m k || decide (k = a.CIDR)) := by
  unfold upsert hasKey
  by_cases hm : m.any (fun kv => kv.1 = a.CIDR) = true
  · rw [if_pos hm, List.any_map]
    have hfst : ∀ kv : List Char × IPRange,
        ((fun kv => decide (kv.1 = k)) ∘
          (fun kv => if kv.1 = a.CIDR then (kv.1, a) else kv)) kv =
        decide (kv.1 = k) := by
      intro kv
      by_cases hc : kv.1 = a.CIDR
      · simp [hc]
      · simp [hc]
    rw [funext hfst]
    by_cases hk : k = a.CIDR
    · subst hk
      simp [hm]
    · simp [hk]
  · rw [if_neg hm, List.any_append]
    simp [eq_comm]

lemma hasKey_foldl (l : List IPRange) (m : List (List Char × IPRange))
    (k : List Char) :
    hasKey (l.foldl upsert m) k =
      (hasKey m k || l.any (fun r => decide (r.CIDR = k))) := by
  induction l generalizing m with
  | nil => simp [hasKey]
  | cons a l ih =>
    rw [List.foldl_cons, ih, hasKey_upsert, List.any_cons]
    cases hasKey m k <;> simp [eq_comm, Bool.or_assoc]

lemma hasKey_toMap (l : List IPRange) (k : List Char) :
    hasKey (toMap l) k = l.any (fun r => decide (r.CIDR = k)) := by
  rw [toMap, hasKey_foldl]
  simp [hasKey]

lemma hasKey_toMap_iff {l : List IPRange} {k : List Char} :
    hasKey (toMap l) k = true ↔ k ∈ l.map (·.CIDR) := by
  rw [hasKey_toMap, List.any_eq_true]
  simp [eq_comm]

lemma exists_entry_of_hasKey {m : List (List Char × IPRange)} {k : List Char}
    (h : hasKey m k = true) : ∃ kv ∈ m, kv.1 = k := by
  unfold hasKey at h
  obtain ⟨kv, hkv, hk⟩ := List.any_eq_true.1 h
  exact ⟨kv, hkv, of_decide_eq_true hk⟩

lemma mem_added {s other : IPRangeSet} {r : IPRange}
    (h : r ∈ (s.Diff other).1.Ranges) :
    r ∈ other.Ranges ∧ r.CIDR ∉ s.GetCIDRs := by
  unfold IPRangeSet.Diff at h
  obtain ⟨kv, hkv, hr⟩ := List.mem_map.1 h
  obtain ⟨hmem, hkeep⟩ := List.mem_filter.1 hkv
  obtain ⟨hin, hcidr⟩ := mem_toMap hmem
  subst hr
  refine ⟨hin, fun hc => ?_⟩
  rw [← hcidr] at hc
  rw [show s.GetCIDRs = s.Ranges.map (·.CIDR) from rfl] at hc
  rw [← hasKey_toMap_iff] at hc
  simp [hc] at hkeep

lemma cidr_mem_added {s other : IPRangeSet} {c : List Char} :
    c ∈ (s.Diff other).1.GetCIDRs ↔
      (c ∈ other.GetCIDRs ∧ c ∉ s.GetCIDRs) := by
  constructor
  · intro h
    obtain ⟨r, hr, hc⟩ := List.mem_map.1 h
    obtain ⟨hin, habs⟩ := mem_added hr
    subst hc
    exact ⟨List.mem_map_of_mem (·.CIDR) hin, habs⟩
  · rintro ⟨hin, habs⟩
    have hk : hasKey (toMap other.Ranges) c = true := hasKey_toMap_iff.2 hin
    obtain ⟨kv, hkv, hk1⟩ := exists_entry_of_hasKey hk
    have hnk : hasKey (toMap s.Ranges) kv.1 = false := by
      rw [hk1]
      cases hv : hasKey (toMap s.Ranges) c
      · rfl
      · exact absurd (hasKey_toMap_iff.1 hv) habs
    have hkeep : kv ∈ (toMap other.Ranges).filter
        (fun kv => !hasKey (toMap s.Ranges) kv.1) :=
      List.mem_filter.2 ⟨hkv, by rw [hnk]; rfl⟩
    have hc2 : kv.2.CIDR = c := by
      rw [← (mem_toMap hkv).2, hk1]
    exact List.mem_map.2 ⟨kv.2, List.mem_map_of_mem (·.2) hkeep, hc2⟩

lemma diff_swap (s other : IPRangeSet) :
    (s.Diff other).2 = (other.Diff s).1 := rfl

lemma parse_wrap (cidrs : List (List Char))
    (hv : ∀ c ∈ cidrs, validCIDR c = true) :
    (parseFilterExpression
        (strL "(ip.src in \x7b" ++ joinSpace cidrs ++ strL "\x7d)")).GetCIDRs =
      cidrs := by
  have hpre : strL "(ip.src in \x7b" = strL "(ip.src in " ++ [lbrace] := by
    decide
  have hpost : strL "\x7d)" = [rbrace, ')'] := by decide
  have hexpr1 : strL "(ip.src in \x7b" ++ joinSpace cidrs ++ strL "\x7d)" =
      strL "(ip.src in " ++ (lbrace :: (joinSpace cidrs ++ strL "\x7d)")) := by
    rw [hpre]
    simp
  have hexpr2 : strL "(ip.src in \x7b" ++ joinSpace cidrs ++ strL "\x7d)" =
      (strL "(ip.src in \x7b" ++ joinSpace cidrs) ++ [rbrace, ')'] := by
    rw [hpost]
  have hopen : firstIdxOr0 lbrace
      (strL "(ip.src in \x7b" ++ joinSpace cidrs ++ strL "\x7d)") = 11 := by
    rw [hexpr1]
    unfold firstIdxOr0
    rw [idxOfFrom_append_none _ _ (by decide), idxOfFrom_cons, if_pos rfl]
    decide
  have hlen : (strL "(ip.src in \x7b" ++ joinSpace cidrs ++ strL "\x7d)").length
      = (joinSpace cidrs).length + 14 := by
    rw [hexpr2]
    simp only [List.length_append, List.length_cons, List.length_nil]
    rw [show (strL "(ip.src in \x7b").length = 12 from by decide]
    omega
  have hrev : (strL "(ip.src in \x7b" ++ joinSpace cidrs ++ strL "\x7d)").reverse
      = ')' :: rbrace :: (strL "(ip.src in \x7b" ++ joinSpace cidrs).reverse := by
    rw [hexpr2, List.reverse_append]
    rfl
  have hclose : lastIdxOr0 rbrace
      (strL "(ip.src in \x7b" ++ joinSpace cidrs ++ strL "\x7d)") =
      (joinSpace cidrs).length + 12 := by
    unfold lastIdxOr0
    rw [hrev, idxOfFrom_cons, if_neg (by decide), idxOfFrom_cons, if_pos rfl]
    simp only [Option.map_some']
    rw [hlen]
    omega
  have hdrop : ((strL "(ip.src in \x7b" ++ joinSpace cidrs ++ strL "\x7d)").drop
      12) = joinSpace cidrs ++ strL "\x7d)" := by
    rw [show strL "(ip.src in \x7b" ++ joinSpace cidrs ++ strL "\x7d)" =
        strL "(ip.src in \x7b" ++ (joinSpace cidrs ++ strL "\x7d)") by simp]
    exact List.drop_left' (by decide)
  have hfieldhyp : ∀ w ∈ cidrs, w ≠ [] ∧ ∀ ch ∈ w, isSpaceChar ch = false := by
    intro w hw
    refine ⟨validCIDR_ne_nil (hv w hw), fun ch hch => ?_⟩
    exact allowedChar_not_space (validCIDR_chars (hv w hw) ch hch)
  unfold parseFilterExpression
  rw [hopen, hclose]
  rw [if_neg (by
    simp only [Bool.or_eq_true, decide_eq_true_eq]
    push_neg
    omega)]
  show ((fields (((strL "(ip.src in \x7b" ++ joinSpace cidrs ++
      strL "\x7d)").drop (11 + 1)).take
        ((joinSpace cidrs).length + 12 - (11 + 1)))).foldl
      (fun s cidr => s.addOrSkip cidr ["cloudflare"]) NewIPRangeSet).GetCIDRs =
    cidrs
  rw [show (11 + 1 : Nat) = 12 from rfl,
    show (joinSpace cidrs).length + 12 - 12 = (joinSpace cidrs).length from by
      omega,
    hdrop, List.take_left, fields_joinSpace cidrs hfieldhyp]
  show ((cidrs.foldl (fun s c => s.addOrSkip c ["cloudflare"])
      NewIPRangeSet)).Ranges.map (·.CIDR) = cidrs
  rw [foldl_addOrSkip hv NewIPRangeSet]
  simp only [List.map_append, List.map_map, NewIPRangeSet, List.map_nil,
    List.nil_append]
  rw [show ((fun (x : IPRange) => x.CIDR) ∘
      fun c => (⟨c, ["cloudflare"]⟩ : IPRange)) = id from funext fun c => rfl,
    List.map_id]

lemma provStep_of_fail {env : ProviderEnv} {p : ProviderRef} {msg : String}
    (h : provFailMsg env p = some msg) (acc : IPRangeSet) :
    provStep env acc p = acc := by
  unfold provFailMsg at h
  unfold provStep
  cases hc : env.getConfig p.name with
  | error m => rfl
  | ok u =>
    rw [hc] at h
    cases hcr : env.createProvider p.name with
    | error m => rfl
    | ok u2 =>
      rw [hcr] at h
      cases hf : env.fetchRanges p.name with
      | error m => rfl
      | ok r =>
        rw [hf] at h
        exact absurd h (by simp)

lemma collect_step_clean {env : ProviderEnv} {p : ProviderRef}
    (h : provFailMsg env p = none) (fm : Option String)
    (rest : List ProviderRef) (allR : IPRangeSet) (sts : List ItemStatus)
    (consulted : List String) :
    collectGo fm env (p :: rest) allR sts consulted =
      collectGo fm env rest (provStep env allR p)
        (sts ++ [provStatus env p]) (consulted ++ [p.name]) := by
  unfold provFailMsg at h
  cases hc : env.getConfig p.name with
  | error m => rw [hc] at h; exact absurd h (by simp)
  | ok u =>
    rw [hc] at h
    cases hcr : env.createProvider p.name with
    | error m => rw [hcr] at h; exact absurd h (by simp)
    | ok u2 =>
      rw [hcr] at h
      cases hf : env.fetchRanges p.name with
      | error m => rw [hf] at h; exact absurd h (by simp)
      | ok r =>
        simp only [collectGo, hc, hcr, hf, provStep, provStatus, provFailMsg]

lemma collect_step_fail {env : ProviderEnv} {p : ProviderRef} {msg : String}
    {fm : Option String} (h : provFailMsg env p = some msg)
    (hfm : isFailMode fm = true) (rest : List ProviderRef) (allR : IPRangeSet)
    (sts : List ItemStatus) (consulted : List String) :
    collectGo fm env (p :: rest) allR sts consulted =
      (consulted ++ [p.name], .error msg) := by
  unfold provFailMsg at h
  cases hc : env.getConfig p.name with
  | error m =>
    rw [hc] at h
    have h' : "Unable to fetch ProviderConfig: " ++ m = msg := by
      simpa using h
    simp only [collectGo, hc, hfm, if_true, h']
  | ok u =>
    rw [hc] at h
    cases hcr : env.createProvider p.name with
    | error m =>
      rw [hcr] at h
      have h' : "Unable to create provider: " ++ m = msg := by
        simpa using h
      simp only [collectGo, hc, hcr, hfm, if_true, h']
    | ok u2 =>
      rw [hcr] at h
      cases hf : env.fetchRanges p.name with
      | error m =>
        rw [hf] at h
        have h' : "Unable to fetch IP ranges: " ++ m = msg := by
          simpa using h
        simp only [collectGo, hc, hcr, hf, hfm, if_true, h']
      | ok r => rw [hf] at h; exact absurd h (by simp)

lemma collect_step_skip {env : ProviderEnv} {p : ProviderRef} {msg : String}
    {fm : Option String} (h : provFailMsg env p = some msg)
    (hfm : isFailMode fm = false) (rest : List ProviderRef) (allR : IPRangeSet)
    (sts : List ItemStatus) (consulted : List String) :
    collectGo fm env (p :: rest) allR sts consulted =
      collectGo fm env rest allR (sts ++ [⟨p.name, "Error", msg, 0⟩])
        (consulted ++ [p.name]) := by
  unfold provFailMsg at h
  cases hc : env.getConfig p.name with
  | error m =>
    rw [hc] at h
    have h' : "Unable to fetch ProviderConfig: " ++ m = msg := by
      simpa using h
    simp only [collectGo, hc, hfm, Bool.false_eq_true, if_false, h']
  | ok u =>
    rw [hc] at h
    cases hcr : env.createProvider p.name with
    | error m =>
      rw [hcr] at h
      have h' : "Unable to create provider: " ++ m = msg := by
        simpa using h
      simp only [collectGo, hc, hcr, hfm, Bool.false_eq_true, if_false, h']
    | ok u2 =>
      rw [hcr] at h
      cases hf : env.fetchRanges p.name with
      | error m =>
        rw [hf] at h
        have h' : "Unable to fetch IP ranges: " ++ m = msg := by
          simpa using h
        simp only [collectGo, hc, hcr, hf, hfm, Bool.false_eq_true, if_false, h']
      | ok r => rw [hf] at h; exact absurd h (by simp)

lemma provStatus_of_fail {env : ProviderEnv} {p : ProviderRef} {msg : String}
    (h : provFailMsg env p = some msg) :
    provStatus env p = ⟨p.name, "Error", msg, 0⟩ := by
  unfold provStatus
  rw [h]

lemma collect_clean {env : ProviderEnv} {fm : Option String} :
    ∀ (provs : List ProviderRef), (∀ p ∈ provs, provFailMsg env p = none) →
    ∀ (allR : IPRangeSet) (sts : List ItemStatus) (consulted : List String),
      collectGo fm env provs allR sts consulted =
        (consulted ++ provs.map (·.name),
         .ok (provs.foldl (provStep env) allR,
              sts ++ provs.map (provStatus env))) := by
  intro provs
  induction provs with
  | nil => intro _ allR sts consulted; simp [collectGo]
  | cons p rest ih =>
    intro hclean allR sts consulted
    rw [collect_step_clean (hclean p (List.mem_cons_self _ _)) fm rest]
    rw [ih (fun q hq => hclean q (List.mem_cons_of_mem _ hq))]
    simp

lemma collect_continue {env : ProviderEnv} {fm : Option String}
    (hfm : isFailMode fm = false) :
    ∀ (provs : List ProviderRef) (allR : IPRangeSet) (sts : List ItemStatus)
      (consulted : List String),
      collectGo fm env provs allR sts consulted =
        (consulted ++ provs.map (·.name),
         .ok (provs.foldl (provStep env) allR,
              sts ++ provs.map (provStatus env))) := by
  intro provs
  induction provs with
  | nil => intro allR sts consulted; simp [collectGo]
  | cons p rest ih =>
    intro allR sts consulted
    cases hp : provFailMsg env p with
    | none =>
      rw [collect_step_clean hp fm rest, ih]
      simp
    | some msg =>
      rw [collect_step_skip hp hfm rest, ih]
      simp [List.foldl_cons, provStep_of_fail hp, provStatus_of_fail hp]

lemma collect_fail_first {env : ProviderEnv} {fm : Option String} {msg : String}
    (hfm : isFailMode fm = true) :
    ∀ (l₁ : List ProviderRef) {p : ProviderRef} (l₂ : List ProviderRef),
      (∀ q ∈ l₁, provFailMsg env q = none) → provFailMsg env p = some msg →
    ∀ (allR : IPRangeSet) (sts : List ItemStatus) (consulted : List String),
      collectGo fm env (l₁ ++ p :: l₂) allR sts consulted =
        (consulted ++ (l₁ ++ [p]).map (·.name), .error msg) := by
  intro l₁
  induction l₁ with
  | nil =>
    intro p l₂ _ hp allR sts consulted
    rw [List.nil_append, collect_step_fail hp hfm l₂]
    simp
  | cons q l ih =>
    intro p l₂ hclean hp allR sts consulted
    rw [List.cons_append,
      collect_step_clean (hclean q (List.mem_cons_self _ _)) fm _,
      ih l₂ (fun x hx => hclean x (List.mem_cons_of_mem _ hx)) hp]
    simp

lemma ingStatus_of_fail {env : IngressEnv} {agg : IPRangeSet} {t : IngressRef}
    {msg : String} (h : ingFailMsg env agg t = some msg) :
    ingStatus env agg t = ⟨t.name, "Error", msg, 0⟩ := by
  unfold ingStatus
  rw [h]

lemma apply_step_clean {env : IngressEnv} {agg : IPRangeSet} {t : IngressRef}
    (h : ingFailMsg env agg t = none) (fm : Option String)
    (rest : List IngressRef) (sts : List ItemStatus)
    (calls : List (String × IPRangeSet)) :
    applyGo fm env agg (t :: rest) sts calls =
      applyGo fm env agg rest (sts ++ [ingStatus env agg t])
        (calls ++ [(t.name, agg)]) := by
  unfold ingFailMsg at h
  cases hc : env.getConfig t.name with
  | error m => rw [hc] at h; exact absurd h (by simp)
  | ok u =>
    rw [hc] at h
    cases hcr : env.createIngress t.name with
    | error m => rw [hcr] at h; exact absurd h (by simp)
    | ok u2 =>
      rw [hcr] at h
      cases hf : env.applyRanges t.name agg with
      | error m => rw [hf] at h; exact absurd h (by simp)
      | ok u3 =>
        simp only [applyGo, hc, hcr, hf, ingStatus, ingFailMsg]

lemma apply_step_fail {env : IngressEnv} {agg : IPRangeSet} {t : IngressRef}
    {msg : String} {fm : Option String} (h : ingFailMsg env agg t = some msg)
    (hfm : isFailMode fm = true) (rest : List IngressRef)
    (sts : List ItemStatus) (calls : List (String × IPRangeSet)) :
    applyGo fm env agg (t :: rest) sts calls =
      (calls ++ (ingCallOpt env agg t).toList, .error msg) := by
  unfold ingFailMsg at h
  cases hc : env.getConfig t.name with
  | error m =>
    rw [hc] at h
    have h' : "Unable to fetch IngressConfig: " ++ m = msg := by
      simpa using h
    simp only [applyGo, hc, hfm, if_true, h', ingCallOpt, Option.toList,
      List.append_nil]
  | ok u =>
    rw [hc] at h
    cases hcr : env.createIngress t.name with
    | error m =>
      rw [hcr] at h
      have h' : "Unable to create ingress: " ++ m = msg := by
        simpa using h
      simp only [applyGo, hc, hcr, hfm, if_true, h', ingCallOpt,
        Option.toList, List.append_nil]
    | ok u2 =>
      rw [hcr] at h
      cases hf : env.applyRanges t.name agg with
      | error m =>
        rw [hf] at h
        have h' : "Unable to apply IP ranges: " ++ m = msg := by
          simpa using h
        simp only [applyGo, hc, hcr, hf, hfm, if_true, h', ingCallOpt,
          Option.toList]
      | ok u3 => rw [hf] at h; exact absurd h (by simp)

lemma apply_step_skip {env : IngressEnv} {agg : IPRangeSet} {t : IngressRef}
    {msg : String} {fm : Option String} (h : ingFailMsg env agg t = some msg)
    (hfm : isFailMode fm = false) (rest : List IngressRef)
    (sts : List ItemStatus) (calls : List (String × IPRangeSet)) :
    applyGo fm env agg (t :: rest) sts calls =
      applyGo fm env agg rest (sts ++ [⟨t.name, "Error", msg, 0⟩])
        (calls ++ (ingCallOpt env agg t).toList) := by
  unfold ingFailMsg at h
  cases hc : env.getConfig t.name with
  | error m =>
    rw [hc] at h
    have h' : "Unable to fetch IngressConfig: " ++ m = msg := by
      simpa using h
    simp only [applyGo, hc, hfm, Bool.false_eq_true, if_false, h', ingCallOpt,
      Option.toList, List.append_nil]
  | ok u =>
    rw [hc] at h
    cases hcr : env.createIngress t.name with
    | error m =>
      rw [hcr] at h
      have h' : "Unable to create ingress: " ++ m = msg := by
        simpa using h
      simp only [applyGo, hc, hcr, hfm, Bool.false_eq_true, if_false, h',
        ingCallOpt, Option.toList, List.append_nil]
    | ok u2 =>
      rw [hcr] at h
      cases hf : env.applyRanges t.name agg with
      | error m =>
        rw [hf] at h
        have h' : "Unable to apply IP ranges: " ++ m = msg := by
          simpa using h
        simp only [applyGo, hc, hcr, hf, hfm, Bool.false_eq_true, if_false, h',
          ingCallOpt, Option.toList]
      | ok u3 => rw [hf] at h; exact absurd h (by simp)

lemma apply_continue_ok (env : IngressEnv) (agg : IPRangeSet)
    {fm : Option String} (hfm : isFailMode fm = false) :
    ∀ (ts : List IngressRef) (sts : List ItemStatus)
      (calls : List (String × IPRangeSet)),
      ∃ sts', (applyGo fm env agg ts sts calls).2 = .ok sts' := by
  intro ts
  induction ts with
  | nil => intro sts calls; exact ⟨sts, rfl⟩
  | cons t rest ih =>
    intro sts calls
    cases ht : ingFailMsg env agg t with
    | none => rw [apply_step_clean ht fm rest]; exact ih _ _
    | some msg => rw [apply_step_skip ht hfm rest]; exact ih _ _

lemma apply_clean {env : IngressEnv} {agg : IPRangeSet} {fm : Option String} :
    ∀ (ts : List IngressRef), (∀ t ∈ ts, ingFailMsg env agg t = none) →
    ∀ (sts : List ItemStatus) (calls : List (String × IPRangeSet)),
      applyGo fm env agg ts sts calls =
        (calls ++ ts.map (fun t => (t.name, agg)),
         .ok (sts ++ ts.map (ingStatus env agg))) := by
  intro ts
  induction ts with
  | nil => intro _ sts calls; simp [applyGo]
  | cons t rest ih =>
    intro hclean sts calls
    rw [apply_step_clean (hclean t (List.mem_cons_self _ _)) fm rest,
      ih (fun u hu => hclean u (List.mem_cons_of_mem _ hu))]
    simp

lemma apply_fail_first {env : IngressEnv} {agg : IPRangeSet} {fm : Option String}
    {msg : String} (hfm : isFailMode fm = true) :
    ∀ (l₁ : List IngressRef) {t : IngressRef} (l₂ : List IngressRef),
      (∀ u ∈ l₁, ingFailMsg env agg u = none) → ingFailMsg env agg t = some msg →
    ∀ (sts : List ItemStatus) (calls : List (String × IPRangeSet)),
      (applyGo fm env agg (l₁ ++ t :: l₂) sts calls).2 = .error msg := by
  intro l₁
  induction l₁ with
  | nil =>
    intro t l₂ _ ht sts calls
    rw [List.nil_append, apply_step_fail ht hfm l₂]
  | cons u l ih =>
    intro t l₂ hclean ht sts calls
    rw [List.cons_append,
      apply_step_clean (hclean u (List.mem_cons_self _ _)) fm _]
    exact ih l₂ (fun x hx => hclean x (List.mem_cons_of_mem _ hx)) ht _ _

lemma exists_first_fail {α : Type} (P : α → Option String) :
    ∀ (l : List α), (l.any (fun x => (P x).isSome)) = true →
      ∃ l₁ a l₂ msg, l = l₁ ++ a :: l₂ ∧ P a = some msg ∧
        ∀ q ∈ l₁, P q = none := by
  intro l
  induction l with
  | nil => intro h; cases h
  | cons a rest ih =>
    intro h
    cases ha : P a with
    | some msg =>
      exact ⟨[], a, rest, msg, rfl, ha, fun q hq => absurd hq (List.not_mem_nil q)⟩
    | none =>
      have h' : rest.any (fun x => (P x).isSome) = true := by
        rcases List.any_eq_true.1 h with ⟨x, hx, hPx⟩
        rcases List.mem_cons.1 hx with rfl | hx'
        · rw [ha] at hPx; cases hPx
        · exact List.any_eq_true.2 ⟨x, hx', hPx⟩
      obtain ⟨l₁, b, l₂, msg, heq, hb, hclean⟩ := ih h'
      refine ⟨a :: l₁, b, l₂, msg, by rw [heq, List.cons_append], hb, ?_⟩
      intro q hq
      rcases List.mem_cons.1 hq with rfl | hq'
      · exact ha
      · exact hclean q hq'

lemma findSome?_clean_append {α : Type} (P : α → Option String)
    (l₁ : List α) (a : α) (l₂ : List α) (msg : String)
    (hclean : ∀ q ∈ l₁, P q = none) (ha : P a = some msg) :
    List.findSome? P (l₁ ++ a :: l₂) = some msg := by
  induction l₁ with
  | nil => simp [List.findSome?_cons, ha]
  | cons q l ih =>
    rw [List.cons_append, List.findSome?_cons,
      hclean q (List.mem_cons_self _ _)]
    exact ih (fun x hx => hclean x (List.mem_cons_of_mem _ hx))

/-! Theorems for the claims. -/

/-- C6: Filter keeps a member exactly when (include is empty OR the
member's labels intersect include) AND NOT (exclude is non-empty AND the
member's labels intersect exclude); filter([],[]) returns a set with the
same CIDR+label content; a member labeled only "web" is dropped by
filter(["web"],["web"]) — exclude wins. -/
theorem filter_label_semantics (s : IPRangeSet) (inc exc : List String) :
    (s.Filter inc exc).Ranges = s.Ranges.filter (fun r =>
        (decide (inc = []) || IPRangeSet.labelMatch inc r.Labels) &&
        !(decide (exc ≠ []) && IPRangeSet.labelMatch exc r.Labels)) ∧
    s.Filter [] [] = s ∧
    (IPRangeSet.mk [⟨strL "10.0.0.0/8", ["web"]⟩]).Filter ["web"] ["web"] =
      ⟨[]⟩ := by
  refine ⟨?_, ?_, by decide⟩
  · show (s.Ranges.filter (IPRangeSet.keepRange inc exc)) = _
    exact List.filter_congr (fun r _ => keepRange_eq_spec inc exc r)
  · cases s with
    | mk rs =>
      simp [IPRangeSet.Filter, IPRangeSet.keepRange, IPRangeSet.labelMatch]

/-- C8 counterexample: a specified key that is absent from a single-entry
secret does not fail — GetSecret falls back to the single entry's value,
contradicting the claim that every such lookup errors. -/
theorem getSecret_specified_absent_key_succeeds :
    ("missing" : String) ≠ "" ∧
    ([("token", "abc")].lookup "missing" = (none : Option String)) ∧
    GetSecret (some [("token", "abc")]) "ns1" "sec1" "missing" =
      .ok "abc" := by
  exact ⟨by decide, rfl, rfl⟩

/-- C8 amended: a present key returns its value; otherwise a single-entry
secret supplies its only value, whether or not a key was specified;
otherwise (absent key and entry count differing from one, or a failed
secret read) the lookup fails. -/
theorem getSecret_amended (data : List (String × String)) (ns nm key : String) :
    (∀ v, data.lookup key = some v → GetSecret (some data) ns nm key = .ok v) ∧
    (data.lookup key = none →
      ∀ e, data = [e] → GetSecret (some data) ns nm key = .ok e.2) ∧
    (data.lookup key = none → data.length ≠ 1 →
      ∃ m, GetSecret (some data) ns nm key = .error m) ∧
    (∃ m, GetSecret none ns nm key = .error m) := by
  refine ⟨?_, ?_, ?_, ⟨_, rfl⟩⟩
  · intro v hv
    simp [GetSecret, hv]
  · intro hn e he
    subst he
    simp [GetSecret, hn]
  · intro hn hlen
    refine ⟨"key " ++ key ++ " not found in secret " ++ ns ++ "/" ++ nm, ?_⟩
    match data, hn, hlen with
    | [], hn, _ => simp [GetSecret, hn]
    | [e], _, hlen => exact absurd rfl hlen
    | e1 :: e2 :: rest, hn, _ => simp [GetSecret, hn]

/-- C8 witness: the amended theorem applied at a concrete secret. -/
theorem getSecret_amended_witness :
    [("token", "abc")].lookup "token" = some "abc" ∧
    GetSecret (some [("token", "abc")]) "n" "s" "token" = .ok "abc" :=
  ⟨rfl, (getSecret_amended [("token", "abc")] "n" "s" "token").1 "abc" rfl⟩

/-- C9: a fetch while the memo is younger than the TTL returns the memo
with zero upstream requests; a fetch with an absent or stale memo issues
exactly one upstream request and, on success, replaces the memo with the
newly built set and resets its timestamp (a failed request leaves the memo
untouched). -/
theorem ghFetch_memoization (ttl : Nat) (st : GHState) (now : Nat)
    (up : Except String GHMeta) :
    (∀ d, st.cachedData = some d → now - st.lastFetch < ttl →
      ghFetchIPRanges ttl st now up = (st, .ok d, 0)) ∧
    ((st.cachedData = none ∨ ttl ≤ now - st.lastFetch) →
      (ghFetchIPRanges ttl st now up).2.2 = 1 ∧
      (∀ meta, up = .ok meta →
        ghFetchIPRanges ttl st now up =
          (⟨some (ghBuild meta), now⟩, .ok (ghBuild meta), 1)) ∧
      (∀ e, up = .error e →
        ghFetchIPRanges ttl st now up = (st, .error e, 1))) := by
  constructor
  · intro d hd hlt
    simp [ghFetchIPRanges, hd, hlt]
  · intro h
    have hcond : (st.cachedData.isSome && decide (now - st.lastFetch < ttl)) = false := by
      rcases h with h | h
      · simp [h]
      · simp [Nat.not_lt.mpr h]
    refine ⟨?_, ?_, ?_⟩
    · unfold ghFetchIPRanges
      rw [if_neg (by simp [hcond])]
      cases up <;> rfl
    · intro meta hup
      subst hup
      unfold ghFetchIPRanges
      rw [if_neg (by simp [hcond])]
    · intro e hup
      subst hup
      unfold ghFetchIPRanges
      rw [if_neg (by simp [hcond])]

/-- C9 witness: the memoization theorem applied to an instance with an
empty memo and a successful upstream request. -/
theorem ghFetch_memoization_witness :
    ghFetchIPRanges 10 ⟨none, 0⟩ 0 (.ok ⟨[], [], [], [], [], [], [], []⟩) =
      (⟨some (ghBuild ⟨[], [], [], [], [], [], [], []⟩), 0⟩,
       .ok (ghBuild ⟨[], [], [], [], [], [], [], []⟩), 1) :=
  ((ghFetch_memoization 10 ⟨none, 0⟩ 0
      (.ok ⟨[], [], [], [], [], [], [], []⟩)).2 (Or.inl rfl)).2.1 _ rfl

/-- C10: Filter, Merge and Diff over the explicit memory return newly
allocated result sets (at the allocator frontier) and write only those
fresh addresses: the receiver's and argument's member sequences are left
unchanged, and the fresh sets hold exactly the pure results. -/
theorem heap_frame_purity (m : Mem) (self other : Nat) (inc exc : List String)
    (hs : self < m.next) (ho : other < m.next) :
    ((FilterH m self inc exc).2 = m.next ∧
     (∀ a, a ≠ m.next → (FilterH m self inc exc).1.store a = m.store a) ∧
     (FilterH m self inc exc).1.store self = m.store self ∧
     (FilterH m self inc exc).1.store m.next =
       (IPRangeSet.Filter ⟨m.store self⟩ inc exc).Ranges) ∧
    ((MergeH m self other).2 = m.next ∧
     (∀ a, a ≠ m.next → (MergeH m self other).1.store a = m.store a) ∧
     (MergeH m self other).1.store self = m.store self ∧
     (MergeH m self other).1.store other = m.store other ∧
     (MergeH m self other).1.store m.next =
       (IPRangeSet.Merge ⟨m.store self⟩ ⟨m.store other⟩).Ranges) ∧
    ((DiffH m self other).2.1 = m.next ∧
     (DiffH m self other).2.2 = m.next + 1 ∧
     (∀ a, a ≠ m.next → a ≠ m.next + 1 →
        (DiffH m self other).1.store a = m.store a) ∧
     (DiffH m self other).1.store self = m.store self ∧
     (DiffH m self other).1.store other = m.store other ∧
     (DiffH m self other).1.store m.next =
       (IPRangeSet.Diff ⟨m.store self⟩ ⟨m.store other⟩).1.Ranges ∧
     (DiffH m self other).1.store (m.next + 1) =
       (IPRangeSet.Diff ⟨m.store self⟩ ⟨m.store other⟩).2.Ranges) := by
  have hsne : self ≠ m.next := Nat.ne_of_lt hs
  have hone : other ≠ m.next := Nat.ne_of_lt ho
  have hsne1 : self ≠ m.next + 1 := Nat.ne_of_lt (Nat.lt_succ_of_lt hs)
  have hone1 : other ≠ m.next + 1 := Nat.ne_of_lt (Nat.lt_succ_of_lt ho)
  refine ⟨⟨rfl, ?_, ?_, ?_⟩, ⟨rfl, ?_, ?_, ?_, ?_⟩, ⟨rfl, rfl, ?_, ?_, ?_, ?_, ?_⟩⟩
  · intro a ha
    simp [FilterH, Mem.alloc, Mem.write, ha]
  · simp [FilterH, Mem.alloc, Mem.write, hsne]
  · simp [FilterH, Mem.alloc, Mem.write, hsne, IPRangeSet.Filter]
  · intro a ha
    simp [MergeH, Mem.alloc, Mem.write, ha]
  · simp [MergeH, Mem.alloc, Mem.write, hsne]
  · simp [MergeH, Mem.alloc, Mem.write, hone]
  · simp [MergeH, Mem.alloc, Mem.write, hsne, hone, IPRangeSet.Merge]
  · intro a ha ha1
    simp [DiffH, Mem.alloc, Mem.write, ha, ha1]
  · simp [DiffH, Mem.alloc, Mem.write, hsne, hsne1]
  · simp [DiffH, Mem.alloc, Mem.write, hone, hone1]
  · simp [DiffH, Mem.alloc, Mem.write, hsne, hone, hsne1, hone1]
  · simp [DiffH, Mem.alloc, Mem.write, hsne, hone, hsne1, hone1]

/-- C10 witness: the frame theorem applied to a two-set memory, observed at
the receiver's and argument's addresses. -/
theorem heap_frame_purity_witness :
    (0 : Nat) < 2 ∧ (1 : Nat) < 2 ∧
    (FilterH ⟨2, fun _ => []⟩ 0 [] []).1.store 0 =
      (Mem.mk 2 (fun _ => [])).store 0 ∧
    (MergeH ⟨2, fun _ => []⟩ 0 1).1.store 1 =
      (Mem.mk 2 (fun _ => [])).store 1 :=
  ⟨by decide, by decide,
   (heap_frame_purity ⟨2, fun _ => []⟩ 0 1 [] [] (by decide) (by decide)).1.2.2.1,
   (heap_frame_purity ⟨2, fun _ => []⟩ 0 1 [] [] (by decide) (by decide)).2.1.2.2.2.1⟩

/-- C7: the rule-based target's expression generator/parser round-trip:
building from {10.0.0.0/8, 10.1.0.0/16} yields exactly
"(ip.src in \x7b10.0.0.0/8 10.1.0.0/16\x7d)", reparsing that exact string
recovers exactly those two CIDRs, and for every non-empty set of valid
CIDRs, parsing the built expression recovers the same CIDR membership. -/
theorem expr_roundtrip (s : IPRangeSet) :
    buildFilterExpression
        ⟨[⟨strL "10.0.0.0/8", ["web"]⟩, ⟨strL "10.1.0.0/16", ["api"]⟩]⟩ =
      strL "(ip.src in \x7b10.0.0.0/8 10.1.0.0/16\x7d)" ∧
    (parseFilterExpression
        (strL "(ip.src in \x7b10.0.0.0/8 10.1.0.0/16\x7d)")).GetCIDRs =
      [strL "10.0.0.0/8", strL "10.1.0.0/16"] ∧
    (s.Ranges ≠ [] → (∀ r ∈ s.Ranges, validCIDR r.CIDR = true) →
      (parseFilterExpression (buildFilterExpression s)).GetCIDRs =
        s.GetCIDRs) := by
  refine ⟨by decide, by decide, ?_⟩
  intro hne hv
  have hcne : s.GetCIDRs.isEmpty = false := by
    cases hR : s.Ranges with
    | nil => exact absurd hR hne
    | cons r rs => simp [IPRangeSet.GetCIDRs, hR]
  unfold buildFilterExpression
  rw [if_neg (by simp [hcne])]
  exact parse_wrap s.GetCIDRs (fun c hc => by
    obtain ⟨r, hr, rfl⟩ := List.mem_map.1 hc
    exact hv r hr)

/-- C7 witness: the round-trip law applied at the two-CIDR set. -/
theorem expr_roundtrip_witness :
    (IPRangeSet.mk [⟨strL "10.0.0.0/8", ["web"]⟩,
        ⟨strL "10.1.0.0/16", ["api"]⟩]).Ranges ≠ [] ∧
    (parseFilterExpression (buildFilterExpression
        ⟨[⟨strL "10.0.0.0/8", ["web"]⟩, ⟨strL "10.1.0.0/16", ["api"]⟩]⟩)).GetCIDRs =
      (IPRangeSet.mk [⟨strL "10.0.0.0/8", ["web"]⟩,
        ⟨strL "10.1.0.0/16", ["api"]⟩]).GetCIDRs :=
  ⟨by decide,
   (expr_roundtrip ⟨[⟨strL "10.0.0.0/8", ["web"]⟩,
      ⟨strL "10.1.0.0/16", ["api"]⟩]⟩).2.2 (by decide)
     (by
      intro r hr
      simp only [List.mem_cons, List.not_mem_nil, or_false] at hr
      rcases hr with rfl | rfl <;> decide)⟩

/-- C5: Diff is computed purely on the cidr field: every added member is a
member of the desired set whose cidr is absent from the receiver (and
conversely every such cidr appears in added), symmetrically for removed;
added's CIDRs are disjoint from the receiver's, removed's from the desired
set's; merging added into the receiver and deleting removed reconstructs
the desired set's CIDR membership; and two sets with identical CIDR
membership diff as empty regardless of labels. -/
theorem diff_cidr_semantics (s other : IPRangeSet) :
    (∀ r ∈ (s.Diff other).1.Ranges, r ∈ other.Ranges ∧ r.CIDR ∉ s.GetCIDRs) ∧
    (∀ r ∈ other.Ranges, r.CIDR ∉ s.GetCIDRs →
      r.CIDR ∈ (s.Diff other).1.GetCIDRs) ∧
    (∀ r ∈ (s.Diff other).2.Ranges, r ∈ s.Ranges ∧ r.CIDR ∉ other.GetCIDRs) ∧
    (∀ r ∈ s.Ranges, r.CIDR ∉ other.GetCIDRs →
      r.CIDR ∈ (s.Diff other).2.GetCIDRs) ∧
    (∀ c ∈ (s.Diff other).1.GetCIDRs, c ∉ s.GetCIDRs) ∧
    (∀ c ∈ (s.Diff other).2.GetCIDRs, c ∉ other.GetCIDRs) ∧
    (∀ c, (c ∈ (s.Merge (s.Diff other).1).GetCIDRs ∧
           c ∉ (s.Diff other).2.GetCIDRs) ↔ c ∈ other.GetCIDRs) ∧
    ((∀ c, c ∈ s.GetCIDRs ↔ c ∈ other.GetCIDRs) →
      (s.Diff other).1.Ranges = [] ∧ (s.Diff other).2.Ranges = []) := by
  have hmerge : ∀ c, c ∈ (s.Merge (s.Diff other).1).GetCIDRs ↔
      (c ∈ s.GetCIDRs ∨ c ∈ (s.Diff other).1.GetCIDRs) := by
    intro c
    show c ∈ (s.Ranges ++ (s.Diff other).1.Ranges).map (·.CIDR) ↔ _
    rw [List.map_append, List.mem_append]
    exact Iff.rfl
  have hrem : ∀ c, c ∈ (s.Diff other).2.GetCIDRs ↔
      (c ∈ s.GetCIDRs ∧ c ∉ other.GetCIDRs) := by
    intro c
    rw [diff_swap]
    exact cidr_mem_added
  refine ⟨fun r hr => mem_added hr, ?_, ?_, ?_, ?_, ?_, ?_, ?_⟩
  · intro r hr habs
    exact cidr_mem_added.2 ⟨List.mem_map_of_mem (·.CIDR) hr, habs⟩
  · intro r hr
    rw [diff_swap] at hr
    exact mem_added hr
  · intro r hr habs
    rw [diff_swap]
    exact cidr_mem_added.2 ⟨List.mem_map_of_mem (·.CIDR) hr, habs⟩
  · exact fun c hc => (cidr_mem_added.1 hc).2
  · intro c hc
    exact (hrem c |>.1 hc).2
  · intro c
    rw [hmerge c, hrem c]
    constructor
    · rintro ⟨hs | ha, hnr⟩
      · by_cases ho : c ∈ other.GetCIDRs
        · exact ho
        · exact absurd ⟨hs, ho⟩ hnr
      · exact (cidr_mem_added.1 ha).1
    · intro ho
      by_cases hs : c ∈ s.GetCIDRs
      · exact ⟨Or.inl hs, fun h => h.2 ho⟩
      · exact ⟨Or.inr (cidr_mem_added.2 ⟨ho, hs⟩), fun h => h.2 ho⟩
  · intro heq
    constructor
    · rw [List.eq_nil_iff_forall_not_mem]
      intro r hr
      obtain ⟨hin, habs⟩ := mem_added hr
      exact habs ((heq r.CIDR).2 (List.mem_map_of_mem (·.CIDR) hin))
    · rw [List.eq_nil_iff_forall_not_mem]
      intro r hr
      rw [diff_swap] at hr
      obtain ⟨hin, habs⟩ := mem_added hr
      exact habs ((heq r.CIDR).1 (List.mem_map_of_mem (·.CIDR) hin))

/-- C5 witness: the Diff semantics applied at two concrete sets, extracting
the reconstruction equivalence at a concrete CIDR. -/
theorem diff_cidr_semantics_witness :
    (strL "10.1.0.0/16" ∈
      ((IPRangeSet.mk [⟨strL "10.0.0.0/8", ["a"]⟩]).Merge
        ((IPRangeSet.mk [⟨strL "10.0.0.0/8", ["a"]⟩]).Diff
          ⟨[⟨strL "10.1.0.0/16", ["b"]⟩]⟩).1).GetCIDRs ∧
     strL "10.1.0.0/16" ∉
      ((IPRangeSet.mk [⟨strL "10.0.0.0/8", ["a"]⟩]).Diff
          ⟨[⟨strL "10.1.0.0/16", ["b"]⟩]⟩).2.GetCIDRs) ↔
    strL "10.1.0.0/16" ∈
      (IPRangeSet.mk [⟨strL "10.1.0.0/16", ["b"]⟩]).GetCIDRs :=
  (diff_cidr_semantics ⟨[⟨strL "10.0.0.0/8", ["a"]⟩]⟩
      ⟨[⟨strL "10.1.0.0/16", ["b"]⟩]⟩).2.2.2.2.2.2.1 (strL "10.1.0.0/16")

/-- C1 (code bug): with no pre-existing rule, the first apply creates the
rule with two external write calls but memoizes the reparse of the
never-assigned `rule.Filter.Expression` — the empty set — so a second
apply with the same desired set inside the cache TTL diffs the cached
empty set against the desired set and issues one more external write (an
update), where the spec requires zero. -/
theorem cf_create_then_reapply_writes :
    ∃ st1 st2 : CFState,
      cfApplyIPRanges ⟨"allowlist", 3600, "direct"⟩ ⟨[], 0, none, 0⟩ 0
          ⟨[⟨strL "10.0.0.0/8", ["web"]⟩]⟩ = .ok (st1, 2) ∧
      st1.cachedData = some NewIPRangeSet ∧
      cfApplyIPRanges ⟨"allowlist", 3600, "direct"⟩ st1 10
          ⟨[⟨strL "10.0.0.0/8", ["web"]⟩]⟩ = .ok (st2, 1) := by
  exact ⟨⟨[⟨0, strL "(ip.src in \x7b10.0.0.0/8\x7d)", "allowlist"⟩], 1,
            some NewIPRangeSet, 0⟩,
         ⟨[⟨0, strL "(ip.src in \x7b10.0.0.0/8\x7d)", "allowlist"⟩], 1,
            some ⟨[⟨strL "10.0.0.0/8", ["cloudflare"]⟩]⟩, 10⟩,
         by rfl, by rfl, by rfl⟩

/-- C3: under failure mode "fail", when a source fails its configuration
resolution, instance creation, or fetch, the cycle aborts: no target's
apply is invoked, no ingress status is recorded, the sources after the
failing one are not consulted, and the ready condition is false. -/
theorem failfast_aborts_cycle (spec : SyncSpec) (penv : ProviderEnv)
    (ienv : IngressEnv) (l₁ l₂ : List ProviderRef) (p : ProviderRef)
    (hprov : spec.providers = l₁ ++ p :: l₂)
    (hfm : isFailMode spec.failureMode = true)
    (hclean : ∀ q ∈ l₁, provFailMsg penv q = none)
    (hfail : provFails penv p = true) :
    (Reconcile spec penv ienv).applyCalls = [] ∧
    (Reconcile spec penv ienv).ingressStatuses = [] ∧
    (Reconcile spec penv ienv).processedProviders =
      (l₁ ++ [p]).map (·.name) ∧
    (Reconcile spec penv ienv).ready.status = false := by
  unfold provFails at hfail
  obtain ⟨msg, hmsg⟩ := Option.isSome_iff_exists.mp hfail
  have hcol : collectProviderIPRanges spec.failureMode penv spec.providers =
      ([] ++ (l₁ ++ [p]).map (·.name), .error msg) := by
    unfold collectProviderIPRanges
    rw [hprov, collect_fail_first hfm l₁ l₂ hclean hmsg]
  simp only [Reconcile, hcol]
  simp

/-- C3 witness: the abort theorem applied at a concrete two-source,
one-target SyncSpec whose first source fails its fetch. -/
theorem failfast_aborts_cycle_witness :
    (Reconcile ⟨[⟨"gh", [], []⟩, ⟨"aws", [], []⟩], [⟨"cf"⟩], some "fail"⟩
        ⟨fun _ => .ok (), fun _ => .ok (), fun _ => .error "down"⟩
        ⟨fun _ => .ok (), fun _ => .ok (), fun _ _ => .ok ()⟩).applyCalls =
      [] ∧
    (Reconcile ⟨[⟨"gh", [], []⟩, ⟨"aws", [], []⟩], [⟨"cf"⟩], some "fail"⟩
        ⟨fun _ => .ok (), fun _ => .ok (), fun _ => .error "down"⟩
        ⟨fun _ => .ok (), fun _ => .ok (), fun _ _ => .ok ()⟩).ingressStatuses =
      [] ∧
    (Reconcile ⟨[⟨"gh", [], []⟩, ⟨"aws", [], []⟩], [⟨"cf"⟩], some "fail"⟩
        ⟨fun _ => .ok (), fun _ => .ok (), fun _ => .error "down"⟩
        ⟨fun _ => .ok (), fun _ => .ok (), fun _ _ => .ok ()⟩).processedProviders =
      ["gh"] ∧
    (Reconcile ⟨[⟨"gh", [], []⟩, ⟨"aws", [], []⟩], [⟨"cf"⟩], some "fail"⟩
        ⟨fun _ => .ok (), fun _ => .ok (), fun _ => .error "down"⟩
        ⟨fun _ => .ok (), fun _ => .ok (), fun _ _ => .ok ()⟩).ready.status =
      false :=
  failfast_aborts_cycle
    ⟨[⟨"gh", [], []⟩, ⟨"aws", [], []⟩], [⟨"cf"⟩], some "fail"⟩
    ⟨fun _ => .ok (), fun _ => .ok (), fun _ => .error "down"⟩
    ⟨fun _ => .ok (), fun _ => .ok (), fun _ _ => .ok ()⟩
    [] [⟨"aws", [], []⟩] ⟨"gh", [], []⟩ rfl rfl
    (fun q hq => absurd hq (List.not_mem_nil q)) rfl

/-- C4: under failure mode "continue", with the first of two sources
failing its fetch, the cycle still succeeds: the failing source's status
records the error with its message, the second source's filtered ranges
form the aggregate, and every target's apply receives that aggregate. -/
theorem continue_mode_second_source_reaches_targets
    (s1 s2 : ProviderRef) (ts : List IngressRef) (penv : ProviderEnv)
    (ienv : IngressEnv) (m : String) (R2 : IPRangeSet)
    (h1c : penv.getConfig s1.name = .ok ())
    (h1i : penv.createProvider s1.name = .ok ())
    (h1f : penv.fetchRanges s1.name = .error m)
    (h2c : penv.getConfig s2.name = .ok ())
    (h2i : penv.createProvider s2.name = .ok ())
    (h2f : penv.fetchRanges s2.name = .ok R2)
    (hts : ∀ t ∈ ts,
      ienv.getConfig t.name = .ok () ∧
      ienv.createIngress t.name = .ok () ∧
      ienv.applyRanges t.name
        (NewIPRangeSet.Merge (providerFilterStep s2 R2)) = .ok ()) :
    (Reconcile ⟨[s1, s2], ts, some "continue"⟩ penv ienv).ready.status =
      true ∧
    (Reconcile ⟨[s1, s2], ts, some "continue"⟩ penv ienv).providerStatuses =
      [⟨s1.name, "Error", "Unable to fetch IP ranges: " ++ m, 0⟩,
       ⟨s2.name, "Success", "", (providerFilterStep s2 R2).Count⟩] ∧
    (Reconcile ⟨[s1, s2], ts, some "continue"⟩ penv ienv).aggregate =
      some (NewIPRangeSet.Merge (providerFilterStep s2 R2)) ∧
    (NewIPRangeSet.Merge (providerFilterStep s2 R2)).Ranges =
      (providerFilterStep s2 R2).Ranges ∧
    (Reconcile ⟨[s1, s2], ts, some "continue"⟩ penv ienv).applyCalls =
      ts.map (fun t =>
        (t.name, NewIPRangeSet.Merge (providerFilterStep s2 R2))) := by
  have hfm : isFailMode (some "continue") = false := by decide
  have h1msg : provFailMsg penv s1 =
      some ("Unable to fetch IP ranges: " ++ m) := by
    unfold provFailMsg
    rw [h1c, h1i, h1f]
  have h2none : provFailMsg penv s2 = none := by
    unfold provFailMsg
    rw [h2c, h2i, h2f]
  have hstep2 : provStep penv NewIPRangeSet s2 =
      NewIPRangeSet.Merge (providerFilterStep s2 R2) := by
    unfold provStep
    rw [h2c, h2i, h2f]
  have hst2 : provStatus penv s2 =
      ⟨s2.name, "Success", "", (providerFilterStep s2 R2).Count⟩ := by
    unfold provStatus
    rw [h2none, h2f]
  have hagg : List.foldl (provStep penv) NewIPRangeSet [s1, s2] =
      NewIPRangeSet.Merge (providerFilterStep s2 R2) := by
    rw [List.foldl_cons, provStep_of_fail h1msg, List.foldl_cons, hstep2]
    rfl
  have hingclean : ∀ t ∈ ts,
      ingFailMsg ienv (NewIPRangeSet.Merge (providerFilterStep s2 R2)) t =
        none := by
    intro t ht
    obtain ⟨hg, hcr, ha⟩ := hts t ht
    unfold ingFailMsg
    rw [hg, hcr, ha]
  have hcol : collectProviderIPRanges (some "continue") penv [s1, s2] =
      ([] ++ [s1, s2].map (·.name),
       .ok (NewIPRangeSet.Merge (providerFilterStep s2 R2),
            [] ++ [s1, s2].map (provStatus penv))) := by
    unfold collectProviderIPRanges
    rw [collect_continue hfm, hagg]
  have happ : applyIPRangesToIngress (some "continue") ienv
      (NewIPRangeSet.Merge (providerFilterStep s2 R2)) ts =
      ([] ++ ts.map (fun t =>
          (t.name, NewIPRangeSet.Merge (providerFilterStep s2 R2))),
       .ok ([] ++ ts.map (ingStatus ienv
          (NewIPRangeSet.Merge (providerFilterStep s2 R2))))) := by
    unfold applyIPRangesToIngress
    rw [apply_clean ts hingclean]
  simp only [Reconcile, hcol, happ]
  simp [provStatus_of_fail h1msg, hst2, IPRangeSet.Merge, NewIPRangeSet]

/-- C4 witness: the continue-mode theorem applied at a concrete two-source,
one-target configuration. -/
theorem continue_mode_second_source_reaches_targets_witness :
    (Reconcile ⟨[⟨"gh", [], []⟩, ⟨"aws", [], []⟩], [⟨"cf"⟩], some "continue"⟩
        ⟨fun _ => .ok (), fun _ => .ok (),
         fun n => if n = "gh" then .error "down"
                  else .ok ⟨[⟨strL "10.0.0.0/8", ["web"]⟩]⟩⟩
        ⟨fun _ => .ok (), fun _ => .ok (), fun _ _ => .ok ()⟩).ready.status =
      true ∧
    (Reconcile ⟨[⟨"gh", [], []⟩, ⟨"aws", [], []⟩], [⟨"cf"⟩], some "continue"⟩
        ⟨fun _ => .ok (), fun _ => .ok (),
         fun n => if n = "gh" then .error "down"
                  else .ok ⟨[⟨strL "10.0.0.0/8", ["web"]⟩]⟩⟩
        ⟨fun _ => .ok (), fun _ => .ok (), fun _ _ => .ok ()⟩).applyCalls =
      [("cf", NewIPRangeSet.Merge (providerFilterStep ⟨"aws", [], []⟩
          ⟨[⟨strL "10.0.0.0/8", ["web"]⟩]⟩))] := by
  have h := continue_mode_second_source_reaches_targets
    ⟨"gh", [], []⟩ ⟨"aws", [], []⟩ [⟨"cf"⟩]
    ⟨fun _ => .ok (), fun _ => .ok (),
     fun n => if n = "gh" then .error "down"
              else .ok ⟨[⟨strL "10.0.0.0/8", ["web"]⟩]⟩⟩
    ⟨fun _ => .ok (), fun _ => .ok (), fun _ _ => .ok ()⟩
    "down" ⟨[⟨strL "10.0.0.0/8", ["web"]⟩]⟩
    rfl rfl (by simp) rfl rfl (by simp)
    (by
      intro t ht
      exact ⟨rfl, rfl, rfl⟩)
  exact ⟨h.1, h.2.2.2.2⟩

/-- C2 counterexample: under failure mode "continue" with a single source
whose fetch fails and no targets configured, the cycle sets the ready
condition to true even though an item failed and no target exists,
contradicting the claimed characterization. -/
theorem reconcile_ready_counterexample :
    (Reconcile ⟨[⟨"gh", [], []⟩], [], some "continue"⟩
        ⟨fun _ => .ok (), fun _ => .ok (), fun _ => .error "boom"⟩
        ⟨fun _ => .ok (), fun _ => .ok (), fun _ _ => .ok ()⟩).ready.status =
      true ∧
    (Reconcile ⟨[⟨"gh", [], []⟩], [], some "continue"⟩
        ⟨fun _ => .ok (), fun _ => .ok (), fun _ => .error "boom"⟩
        ⟨fun _ => .ok (), fun _ => .ok (),
          fun _ _ => .ok ()⟩).providerStatuses =
      [⟨"gh", "Error", "Unable to fetch IP ranges: boom", 0⟩] ∧
    (⟨[⟨"gh", [], []⟩], [], some "continue"⟩ : SyncSpec).ingress = [] :=
  ⟨rfl, rfl, rfl⟩

/-- C2 amended: the ready condition is false exactly when failure mode is
"fail" and some configured source or target item fails (sources checked
first); the reason is then ProviderError or IngressError accordingly, with
the message drawn from the first failing item. In every other case —
including failure mode "continue" with failing items, and zero configured
sources or targets — the condition is true. -/
theorem reconcile_ready_amended (spec : SyncSpec) (penv : ProviderEnv)
    (ienv : IngressEnv) :
    ((Reconcile spec penv ienv).ready.status = false ↔
      (isFailMode spec.failureMode = true ∧
       (spec.providers.any (provFails penv) = true ∨
        spec.ingress.any
          (ingFails ienv (collectedAggregate penv spec.providers)) = true))) ∧
    ((Reconcile spec penv ienv).ready.status = false →
      ((spec.providers.any (provFails penv) = true ∧
        (Reconcile spec penv ienv).ready.reason = "ProviderError" ∧
        spec.providers.findSome? (provFailMsg penv) =
          some (Reconcile spec penv ienv).ready.message) ∨
       (spec.providers.any (provFails penv) = false ∧
        (Reconcile spec penv ienv).ready.reason = "IngressError" ∧
        spec.ingress.findSome?
            (ingFailMsg ienv (collectedAggregate penv spec.providers)) =
          some (Reconcile spec penv ienv).ready.message))) := by
  cases hfm : isFailMode spec.failureMode with
  | false =>
    have hcol : collectProviderIPRanges spec.failureMode penv spec.providers =
        ([] ++ spec.providers.map (·.name),
         .ok (spec.providers.foldl (provStep penv) NewIPRangeSet,
              [] ++ spec.providers.map (provStatus penv))) := by
      unfold collectProviderIPRanges
      rw [collect_continue hfm]
    obtain ⟨sts', hex⟩ := apply_continue_ok ienv
      (spec.providers.foldl (provStep penv) NewIPRangeSet) hfm spec.ingress
      [] []
    rcases hpair : applyIPRangesToIngress spec.failureMode ienv
        (spec.providers.foldl (provStep penv) NewIPRangeSet) spec.ingress with
      ⟨calls, ex⟩
    have hex2 : ex = .ok sts' := by
      have h2 : (applyIPRangesToIngress spec.failureMode ienv
          (spec.providers.foldl (provStep penv) NewIPRangeSet)
          spec.ingress).2 = .ok sts' := hex
      rw [hpair] at h2
      exact h2
    subst hex2
    have hready : (Reconcile spec penv ienv).ready =
        ⟨true, "SyncSuccessful", "Successfully synced IP ranges"⟩ := by
      simp only [Reconcile, hcol, hpair]
    constructor
    · rw [hready]
      simp [hfm]
    · intro hfalse
      rw [hready] at hfalse
      exact absurd hfalse (by simp)
  | true =>
    cases hpa : spec.providers.any (provFails penv) with
    | true =>
      obtain ⟨l₁, p, l₂, msg, heq, hp, hclean⟩ :=
        exists_first_fail (provFailMsg penv) spec.providers hpa
      have hcol : collectProviderIPRanges spec.failureMode penv
          spec.providers = ([] ++ (l₁ ++ [p]).map (·.name), .error msg) := by
        unfold collectProviderIPRanges
        rw [heq, collect_fail_first hfm l₁ l₂ hclean hp]
      have hready : (Reconcile spec penv ienv).ready =
          ⟨false, "ProviderError", msg⟩ := by
        simp only [Reconcile, hcol]
      have hfind : spec.providers.findSome? (provFailMsg penv) = some msg := by
        rw [heq]
        exact findSome?_clean_append _ l₁ p l₂ msg hclean hp
      constructor
      · rw [hready]
        simp [hfm, hpa]
      · intro _
        left
        exact ⟨rfl, by rw [hready], by rw [hready]; exact hfind⟩
    | false =>
      have hcleanAll : ∀ q ∈ spec.providers, provFailMsg penv q = none := by
        intro q hq
        cases hP : provFailMsg penv q with
        | none => rfl
        | some msg =>
          exfalso
          have hany : spec.providers.any (provFails penv) = true :=
            List.any_eq_true.2 ⟨q, hq, by unfold provFails; rw [hP]; rfl⟩
          rw [hpa] at hany
          cases hany
      have hcol : collectProviderIPRanges spec.failureMode penv
          spec.providers =
          ([] ++ spec.providers.map (·.name),
           .ok (spec.providers.foldl (provStep penv) NewIPRangeSet,
                [] ++ spec.providers.map (provStatus penv))) := by
        unfold collectProviderIPRanges
        rw [collect_clean spec.providers hcleanAll]
      cases hia : spec.ingress.any
          (ingFails ienv (collectedAggregate penv spec.providers)) with
      | true =>
        obtain ⟨l₁, t, l₂, msg, heq, ht, hclean⟩ :=
          exists_first_fail
            (ingFailMsg ienv (collectedAggregate penv spec.providers))
            spec.ingress hia
        have hex : (applyIPRangesToIngress spec.failureMode ienv
            (spec.providers.foldl (provStep penv) NewIPRangeSet)
            spec.ingress).2 = .error msg := by
          rw [heq]
          exact apply_fail_first hfm l₁ l₂ hclean ht [] []
        rcases hpair : applyIPRangesToIngress spec.failureMode ienv
            (spec.providers.foldl (provStep penv) NewIPRangeSet)
            spec.ingress with ⟨calls, ex⟩
        rw [hpair] at hex
        have hex2 : ex = .error msg := hex
        subst hex2
        have hready : (Reconcile spec penv ienv).ready =
            ⟨false, "IngressError", msg⟩ := by
          simp only [Reconcile, hcol, hpair]
        have hfind : spec.ingress.findSome?
            (ingFailMsg ienv (collectedAggregate penv spec.providers)) =
            some msg := by
          rw [heq]
          exact findSome?_clean_append _ l₁ t l₂ msg hclean ht
        constructor
        · rw [hready]
          simp [hfm, hia]
        · intro _
          right
          exact ⟨rfl, by rw [hready], by rw [hready]; exact hfind⟩
      | false =>
        have hingClean : ∀ t ∈ spec.ingress,
            ingFailMsg ienv (collectedAggregate penv spec.providers) t =
              none := by
          intro t ht
          cases hP : ingFailMsg ienv (collectedAggregate penv spec.providers)
              t with
          | none => rfl
          | some msg =>
            exfalso
            have hany : spec.ingress.any
                (ingFails ienv (collectedAggregate penv spec.providers)) =
                true :=
              List.any_eq_true.2 ⟨t, ht, by unfold ingFails; rw [hP]; rfl⟩
            rw [hia] at hany
            cases hany
        have happ : applyIPRangesToIngress spec.failureMode ienv
            (spec.providers.foldl (provStep penv) NewIPRangeSet)
            spec.ingress =
            ([] ++ spec.ingress.map
              (fun t => (t.name, collectedAggregate penv spec.providers)),
             .ok ([] ++ spec.ingress.map
              (ingStatus ienv (collectedAggregate penv spec.providers)))) := by
          unfold applyIPRangesToIngress
          exact apply_clean spec.ingress hingClean [] []
        have hready : (Reconcile spec penv ienv).ready =
            ⟨true, "SyncSuccessful", "Successfully synced IP ranges"⟩ := by
          simp only [Reconcile, hcol, happ]
        constructor
        · rw [hready]
          simp [hpa, hia]
        · intro hfalse
          rw [hready] at hfalse
          exact absurd hfalse (by simp)

/-- C2 witness for the amended characterization: the iff applied at a
concrete single-source fail-mode configuration whose fetch fails. -/
theorem reconcile_ready_amended_witness :
    (Reconcile ⟨[⟨"gh", [], []⟩], [], some "fail"⟩
        ⟨fun _ => .ok (), fun _ => .ok (), fun _ => .error "boom"⟩
        ⟨fun _ => .ok (), fun _ => .ok (), fun _ _ => .ok ()⟩).ready.status =
      false ↔
    (isFailMode (some "fail") = true ∧
     (([⟨"gh", [], []⟩] : List ProviderRef).any
        (provFails ⟨fun _ => .ok (), fun _ => .ok (),
          fun _ => .error "boom"⟩) = true ∨
      ([] : List IngressRef).any
        (ingFails ⟨fun _ => .ok (), fun _ => .ok (), fun _ _ => .ok ()⟩
          (collectedAggregate
            ⟨fun _ => .ok (), fun _ => .ok (), fun _ => .error "boom"⟩
            [⟨"gh", [], []⟩])) = true)) :=
  (reconcile_ready_amended ⟨[⟨"gh", [], []⟩], [], some "fail"⟩
    ⟨fun _ => .ok (), fun _ => .ok (), fun _ => .error "boom"⟩
    ⟨fun _ => .ok (), fun _ => .ok (), fun _ _ => .ok ()⟩).1

end MetaSync
